import Mathlib

/-!
Shallow embedding of `src/mm.c`, an implicit free-list dynamic memory
allocator with a doubly linked explicit free list, and proofs about it.

Modelling conventions:
* Memory is a word store `mem : Nat → Nat`: the 32-bit value stored at each
  byte address.  The program only reads and writes 4-byte-aligned words
  (headers, footers, free-list link fields), so a word store keyed by byte
  address is an exact model of every access the C code performs; `memcpy`
  is modelled byte-accurately for 4-aligned source/destination below.
* Pointers are byte addresses as natural numbers, `0` standing for `NULL`.
  All pointer arithmetic is performed modulo `2^32` (`padd` / `psub`),
  matching 32-bit pointer arithmetic (`-m32`), which matters because
  `mm_realloc` computes `(BlockHeader *)ptr - 1` before its null check.
* Header/footer words are stored as `size + allocated`.  In the C code the
  store is `size | allocated` with `size` a multiple of 8 and
  `allocated ∈ {0,1}`, for which bitwise or coincides with addition.
  Decoding `(*bp) & ~7` is `w - w % 8` and `(*bp) & 1` is `w % 2` for the
  non-negative word values that arise.
* The Region Growth Provider (`mem_sbrk` of `memlib.h`, an external
  collaborator per the specification) is modelled from the spec: a
  monotonic bump of the region end that may fail, failure signalled by a
  sentinel (here `Option.none`).  Which calls succeed is determined by the
  `grow` oracle carried in the state.
* The unbounded loops (`find_fit`'s list walks, `mm_malloc`'s `while(1)`)
  are given explicit fuel; exhausted fuel is the distinguished outcome
  `none`, used to reason about non-termination.
-/

/-- `2^32`, the pointer/word modulus of the 32-bit build. -/
def W32 : Nat := 4294967296

/-- 32-bit pointer addition. -/
def padd (a b : Nat) : Nat := (a + b) % W32

/-- 32-bit pointer subtraction (two's-complement wraparound). -/
def psub (a b : Nat) : Nat := (a + (W32 - b % W32)) % W32

/-- Allocator state: the word store, the region end (`mem_sbrk` bump
pointer), the three globals of `mm.c`, and the growth-provider oracle
(given the current region end and a request size, does the provider
succeed?). -/
structure AllocState where
  mem : Nat → Nat
  brk : Nat
  heap_blocks : Nat
  free_headp : Nat
  free_tailp : Nat
  grow : Nat → Nat → Bool

/-- Read the word at address `a`. -/
def readW (st : AllocState) (a : Nat) : Nat := st.mem a

/-- Write the word `v` at address `a`. -/
def writeW (st : AllocState) (a v : Nat) : AllocState :=
  { st with mem := fun x => if x = a then v else st.mem x }

/-- Decode the size field of a header/footer word: `w & ~7`. -/
def decSize (w : Nat) : Nat := w - w % 8

/-- Decode the allocated bit of a header/footer word: `w & 1`. -/
def decAlloc (w : Nat) : Nat := w % 2

/-- Encode a header/footer word: `size | allocated` (= `size + allocated`
for `size % 8 = 0`, `allocated ∈ {0,1}`). -/
def encHF (size allocated : Nat) : Nat := size + allocated

/-- `get_size(bp)`: read the size field from the header (or footer) at `bp`. -/
def get_size (st : AllocState) (bp : Nat) : Nat := decSize (readW st bp)

/-- `get_allocated(bp)`: read the allocated bit at `bp`. -/
def get_allocated (st : AllocState) (bp : Nat) : Nat := decAlloc (readW st bp)

/-- `set_header(bp, size, allocated)`. -/
def set_header (st : AllocState) (bp size allocated : Nat) : AllocState :=
  writeW st bp (encHF size allocated)

/-- `set_footer(bp, size, allocated)`: writes at
`(char *)bp + get_size(bp) - 4` (note: the offset uses the size currently
stored in the header, not the `size` argument). -/
def set_footer (st : AllocState) (bp size allocated : Nat) : AllocState :=
  set_header st (psub (padd bp (get_size st bp)) 4) size allocated

/-- `get_payload_addr(bp)`: the payload starts 4 bytes after the header. -/
def get_payload_addr (bp : Nat) : Nat := padd bp 4

/-- `get_prev(bp)`: read the previous block's footer at `bp - 4`, subtract
its size from `bp`. -/
def get_prev (st : AllocState) (bp : Nat) : Nat :=
  psub bp (get_size st (psub bp 4))

/-- `get_next(bp)`: `bp` plus this block's size. -/
def get_next (st : AllocState) (bp : Nat) : Nat :=
  padd bp (get_size st bp)

/-- `get_prev_free(bp)`: the `prev_free` field of a free block, stored 4
bytes after the header. -/
def get_prev_free (st : AllocState) (bp : Nat) : Nat := readW st (padd bp 4)

/-- `get_next_free(bp)`: the `next_free` field, stored 8 bytes after the
header. -/
def get_next_free (st : AllocState) (bp : Nat) : Nat := readW st (padd bp 8)

/-- `set_prev_free(bp, prev)`. -/
def set_prev_free (st : AllocState) (bp prev : Nat) : AllocState :=
  writeW st (padd bp 4) prev

/-- `set_next_free(bp, next)`. -/
def set_next_free (st : AllocState) (bp next : Nat) : AllocState :=
  writeW st (padd bp 8) next

/-- `free_list_prepend(bp)`: add `bp` at the head of the free list. -/
def free_list_prepend (st : AllocState) (bp : Nat) : AllocState :=
  if st.free_headp ≠ 0 ∨ st.free_tailp ≠ 0 then
    let st1 := set_prev_free st bp 0
    let st2 := set_next_free st1 bp st1.free_headp
    let st3 := set_prev_free st2 st2.free_headp bp
    { st3 with free_headp := bp }
  else
    let st1 := set_prev_free st bp 0
    let st2 := set_next_free st1 bp 0
    { st2 with free_headp := bp, free_tailp := bp }

/-- `free_list_append(bp)`: add `bp` at the tail of the free list. -/
def free_list_append (st : AllocState) (bp : Nat) : AllocState :=
  if st.free_headp ≠ 0 ∨ st.free_tailp ≠ 0 then
    let st1 := set_next_free st bp 0
    let st2 := set_next_free st1 st1.free_tailp bp
    let st3 := set_prev_free st2 bp st2.free_tailp
    { st3 with free_tailp := bp }
  else
    let st1 := set_prev_free st bp 0
    let st2 := set_next_free st1 bp 0
    { st2 with free_headp := bp, free_tailp := bp }

/-- `free_list_remove(bp)`: excise `bp` from the free list (four cases:
head, tail, sole element, interior). -/
def free_list_remove (st : AllocState) (bp : Nat) : AllocState :=
  if get_prev_free st bp = 0 ∧ get_next_free st bp ≠ 0 then
    let st1 := set_prev_free st (get_next_free st bp) 0
    let st2 := { st1 with free_headp := get_next_free st1 bp }
    set_next_free st2 bp 0
  else if get_next_free st bp = 0 ∧ get_prev_free st bp ≠ 0 then
    let st1 := set_next_free st (get_prev_free st bp) 0
    let st2 := { st1 with free_tailp := get_prev_free st1 bp }
    set_prev_free st2 bp 0
  else if get_prev_free st bp = 0 ∧ get_next_free st bp = 0 then
    let st1 := { st with free_headp := 0, free_tailp := 0 }
    let st2 := set_prev_free st1 bp 0
    set_next_free st2 bp 0
  else
    let st1 := set_next_free st (get_prev_free st bp) (get_next_free st bp)
    set_prev_free st1 (get_next_free st1 bp) (get_prev_free st1 bp)

/-- `free_coalesce(bp)`: mark `bp` free, merge with free heap neighbours,
insert into the free list; returns the merged block and the new state. -/
def free_coalesce (st : AllocState) (bp : Nat) : Nat × AllocState :=
  let size := get_size st bp
  let st1 := set_header st bp size 0
  let st2 := set_footer st1 bp size 0
  let prev_alloc := get_allocated st2 (get_prev st2 bp)
  let next_alloc := get_allocated st2 (get_next st2 bp)
  if prev_alloc ≠ 0 ∧ next_alloc ≠ 0 then
    (bp, if size < 1000 then free_list_prepend st2 bp else free_list_append st2 bp)
  else if prev_alloc ≠ 0 ∧ next_alloc = 0 then
    let st3 := free_list_remove st2 (get_next st2 bp)
    let st4 := if size < 1000 then free_list_prepend st3 bp else free_list_append st3 bp
    let nextSize := get_size st4 (get_next st4 bp)
    let totalSize := size + nextSize
    let st5 := set_header st4 bp totalSize 0
    let st6 := set_footer st5 bp totalSize 0
    (bp, st6)
  else if prev_alloc = 0 ∧ next_alloc ≠ 0 then
    let prevSize := get_size st2 (get_prev st2 bp)
    let totalSize := size + prevSize
    let st3 := set_header st2 (get_prev st2 bp) totalSize 0
    let st4 := set_footer st3 (get_prev st3 bp) totalSize 0
    (get_prev st4 bp, st4)
  else
    let st3 := free_list_remove st2 (get_next st2 bp)
    let nextSize := get_size st3 (get_next st3 bp)
    let prevSize := get_size st3 (get_prev st3 bp)
    let totalSize := prevSize + size + nextSize
    let st4 := set_header st3 (get_prev st3 bp) totalSize 0
    let st5 := set_footer st4 (get_prev st4 bp) totalSize 0
    (get_prev st5 bp, st5)

/-- Modelled from the spec: the Region Growth Provider's `grow(byte_count)`
primitive (`mem_sbrk` of `memlib.h`, which is not part of `src/`).  On
success it returns the old region end and bumps it by `size`; on failure
(the oracle refuses) it returns the failure sentinel, here `none`. -/
def mem_sbrk (st : AllocState) (size : Nat) : Option (Nat × AllocState) :=
  if st.grow st.brk size then some (st.brk, { st with brk := st.brk + size })
  else none

/-- `extend_heap(size)`: grow the region, overwrite the old epilogue with a
free block of `size` bytes, write a fresh epilogue, coalesce.  Returns the
null pointer (0) and the unchanged state on provider failure. -/
def extend_heap (st : AllocState) (size : Nat) : Nat × AllocState :=
  match mem_sbrk st size with
  | none => (0, st)
  | some (bp, st1) =>
    let old_epilogue := psub bp 4
    let st2 := set_header st1 old_epilogue size 0
    let st3 := set_footer st2 old_epilogue size 0
    let st4 := set_header st3 (get_next st3 old_epilogue) 0 1
    free_coalesce st4 old_epilogue

/-- `mm_init()`: reset the free list, claim a 16-byte region for the
padding word, prologue and epilogue, then extend by 200 bytes (the return
value of that extension is ignored).  Returns -1 on provider failure for
the initial region, 0 otherwise. -/
def mm_init (st : AllocState) : Int × AllocState :=
  let st0 := { st with free_headp := 0, free_tailp := 0 }
  match mem_sbrk st0 16 with
  | none => (-1, st0)
  | some (new_region, st1) =>
    let st2 := set_header st1 new_region 0 0
    let st3 := set_header st2 (padd new_region 4) 8 1
    let st4 := set_footer st3 (padd new_region 4) 8 1
    let st5 := set_header st4 (padd new_region 12) 0 1
    let st6 := { st5 with heap_blocks := padd new_region 4 }
    (0, (extend_heap st6 200).2)

/-- `mm_free(bp)`: step back 4 bytes from the payload to the header and
coalesce. -/
def mm_free (st : AllocState) (bp : Nat) : AllocState :=
  (free_coalesce st (psub bp 4)).2

/-- The `size > 270` loop of `find_fit`: walk the free list backward from
`hptr` via `prev_free`; on the first block of sufficient size, peek one
block toward the head and prefer it when it is smaller yet sufficient. -/
def ffLoopTail (st : AllocState) (size : Nat) : Nat → Nat → Nat
  | 0, _ => 0
  | _, 0 => 0
  | fuel + 1, hptr =>
    let bSize := get_size st hptr
    if bSize ≥ size then
      if get_prev_free st hptr ≠ 0 then
        let nSize := get_size st (get_prev_free st hptr)
        if nSize < bSize ∧ nSize ≥ size then get_prev_free st hptr else hptr
      else hptr
    else ffLoopTail st size fuel (get_prev_free st hptr)

/-- The `size <= 270` loop of `find_fit`: walk the free list forward from
`hptr` via `next_free`, with the symmetric one-block peek toward the
tail. -/
def ffLoopHead (st : AllocState) (size : Nat) : Nat → Nat → Nat
  | 0, _ => 0
  | _, 0 => 0
  | fuel + 1, hptr =>
    let bSize := get_size st hptr
    if bSize ≥ size then
      if get_next_free st hptr ≠ 0 then
        let nSize := get_size st (get_next_free st hptr)
        if nSize < bSize ∧ nSize ≥ size then get_next_free st hptr else hptr
      else hptr
    else ffLoopHead st size fuel (get_next_free st hptr)

/-- `find_fit(size)`: search from the tail when `size > 270`, else from the
head; 0 (`NULL`) when no free block is large enough (or fuel runs out). -/
def find_fit (st : AllocState) (size fuel : Nat) : Nat :=
  if size > 270 then ffLoopTail st size fuel st.free_tailp
  else ffLoopHead st size fuel st.free_headp

/-- `place(bp, size)`: allocate `size` bytes inside free block `bp`.
Removes `bp` from the free list; uses the whole block when the leftover is
at most 8 bytes, otherwise splits, placing the allocation at the end when
`size > 25` and at the front otherwise, and coalesces the leftover. -/
def place (st : AllocState) (bp size : Nat) : Nat × AllocState :=
  let newSize := get_size st bp - size
  let st1 := free_list_remove st bp
  if newSize ≤ 8 then
    let st2 := set_header st1 bp (get_size st1 bp) 1
    let st3 := set_footer st2 bp (get_size st2 bp) 1
    (bp, st3)
  else if size > 25 then
    let st2 := set_header st1 bp newSize 0
    let st3 := set_footer st2 bp newSize 0
    let st4 := set_header st3 (get_next st3 bp) size 1
    let st5 := set_footer st4 (get_next st4 bp) size 1
    let st6 := (free_coalesce st5 bp).2
    (get_next st6 bp, st6)
  else
    let st2 := set_header st1 bp size 1
    let st3 := set_footer st2 bp size 1
    let st4 := set_header st3 (get_next st3 bp) newSize 0
    let st5 := set_footer st4 (get_next st4 bp) newSize 0
    let st6 := (free_coalesce st5 (get_next st5 bp)).2
    (bp, st6)

/-- `required_block_size(payload_size)`: add 8 bytes for header/footer and
round up to a multiple of 8. -/
def required_block_size (payload_size : Nat) : Nat :=
  (payload_size + 8 + 7) / 8 * 8

/-- The `while(1)` retry loop of `mm_malloc`: extend the heap by
`required_size` (ignoring the result), retry `find_fit`, loop.  `none`
models non-termination (fuel exhausted). -/
def mmMallocLoop (required_size : Nat) : Nat → AllocState → Option (Nat × AllocState)
  | 0, _ => none
  | fuel + 1, st =>
    let st1 := (extend_heap st required_size).2
    if find_fit st1 required_size (fuel + 1) ≠ 0 then
      let pr := place st1 (find_fit st1 required_size (fuel + 1)) required_size
      some (get_payload_addr pr.1, pr.2)
    else mmMallocLoop required_size fuel st1

/-- `mm_malloc(size)`: 0 requests return `NULL`; otherwise find a fit or
extend the heap until one appears.  Returns the payload pointer and the new
state; `none` models non-termination. -/
def mm_malloc (st : AllocState) (size fuel : Nat) : Option (Nat × AllocState) :=
  if size = 0 then some (0, st)
  else
    let required_size := required_block_size size
    if find_fit st required_size fuel ≠ 0 then
      let pr := place st (find_fit st required_size fuel) required_size
      some (get_payload_addr pr.1, pr.2)
    else mmMallocLoop required_size fuel st

/-- Copy one word from `src + 4*i` to `dst + 4*i` for each `i < n`. -/
def memcpyWords (st : AllocState) (dst src : Nat) : Nat → AllocState
  | 0 => st
  | n + 1 =>
    let st1 := memcpyWords st dst src n
    writeW st1 (padd dst (4 * n)) (readW st1 (padd src (4 * n)))

/-- `memcpy(dst, src, n)` for 4-aligned `dst`/`src` (the only call in
`mm.c` passes 8-aligned payload pointers): copy `n / 4` whole words, then
the low `n % 4` bytes of the next word (little-endian byte order). -/
def memcpyAligned (st : AllocState) (dst src n : Nat) : AllocState :=
  let st1 := memcpyWords st dst src (n / 4)
  if n % 4 = 0 then st1
  else
    let r := n % 4
    let d := padd dst (4 * (n / 4))
    let s := padd src (4 * (n / 4))
    writeW st1 d (readW st1 s % 256 ^ r + (readW st1 d - readW st1 d % 256 ^ r))

/-- The allocate–copy–free fallback of `mm_realloc`: `mm_malloc(size)`,
`memcpy` of `MIN(size, (unsigned)get_size(ptr - 4) - 8)` bytes, then
`mm_free(ptr)`. -/
def reallocCopyPath (st : AllocState) (ptr size fuel : Nat) : Option (Nat × AllocState) :=
  match mm_malloc st size fuel with
  | none => none
  | some (new_ptr, st1) =>
    let cnt := min size (psub (get_size st1 (psub ptr 4)) 8)
    let st2 := memcpyAligned st1 new_ptr ptr cnt
    (some (new_ptr, mm_free st2 ptr))

/-- `mm_realloc(ptr, size)`.  Note two faithful details: the null test is
on `hptr = ptr - 4` (computed with 32-bit wraparound), and the
free-equivalent path passes `hptr` — not `ptr` — to `mm_free`. -/
def mm_realloc (st : AllocState) (ptr size fuel : Nat) : Option (Nat × AllocState) :=
  let hptr := psub ptr 4
  let rSize := required_block_size size
  let size_block := get_size st hptr
  let sSize := psub size_block rSize
  let aSize := get_size st hptr + get_size st (get_next st hptr)
  let newSize := psub aSize rSize
  if hptr = 0 then mm_malloc st size fuel
  else if size = 0 then some (0, mm_free st hptr)
  else if size_block < rSize then
    if get_allocated st (get_next st hptr) = 0 then
      if aSize ≥ rSize then
        let st1 := free_list_remove st (get_next st hptr)
        if newSize ≤ 250 then
          let st2 := set_header st1 hptr aSize 1
          let st3 := set_footer st2 hptr aSize 1
          some (get_payload_addr hptr, st3)
        else
          let st2 := set_header st1 hptr rSize 1
          let st3 := set_footer st2 hptr rSize 1
          let st4 := set_header st3 (get_next st3 hptr) newSize 0
          let st5 := set_footer st4 (get_next st4 hptr) newSize 0
          let st6 := (free_coalesce st5 (get_next st5 hptr)).2
          some (get_payload_addr hptr, st6)
      else reallocCopyPath st ptr size fuel
    else reallocCopyPath st ptr size fuel
  else
    if sSize > 250 then
      let st1 := set_header st hptr rSize 1
      let st2 := set_footer st1 hptr rSize 1
      let st3 := set_header st2 (get_next st2 hptr) sSize 0
      let st4 := set_footer st3 (get_next st3 hptr) sSize 0
      let st5 := (free_coalesce st4 (get_next st4 hptr)).2
      some (get_payload_addr hptr, st5)
    else some (get_payload_addr hptr, st)

/-- A store by the client program into memory it owns (writing into one's
own allocated payload is legitimate client behaviour; the allocator is not
involved). -/
def user_store (st : AllocState) (a v : Nat) : AllocState := writeW st a v

/-! ### Free-list well-formedness

The explicit free list of `mm.c` is a doubly linked list threaded through
memory by the `prev_free`/`next_free` fields at offsets 4 and 8 of each
free block.  We describe a well-formed list by the Lean list of its node
addresses (head first) and executable chain predicates over the store. -/

/-- The memory cells holding the `prev_free`/`next_free` fields of the
given nodes. -/
def fieldCells (l : List Nat) : List Nat := l.flatMap (fun a => [a + 4, a + 8])

/-- The cells holding the `prev_free` fields of the given nodes. -/
def prevCells (l : List Nat) : List Nat := l.map (fun a => a + 4)

/-- The cells holding the `next_free` fields of the given nodes. -/
def nextCells (l : List Nat) : List Nat := l.map (fun a => a + 8)

/-- The `next_free` chain: consecutive nodes are linked by the field at
offset 8, and the last node's `next_free` is `e`. -/
def nextChainToB (st : AllocState) (e : Nat) : List Nat → Bool
  | [] => true
  | [a] => (a != 0) && (st.mem (a + 8) == e)
  | a :: b :: r => (a != 0) && (st.mem (a + 8) == b) && nextChainToB st e (b :: r)

/-- The `prev_free` chain: each node's field at offset 4 names its
predecessor, the first node's predecessor being `p`. -/
def prevChainB (st : AllocState) (p : Nat) : List Nat → Bool
  | [] => true
  | a :: r => (a != 0) && (st.mem (a + 4) == p) && prevChainB st a r

/-- `l` is exactly the free list of `st`: both chains close with null ends
and the global head/tail pointers frame the list. -/
def isFreeListB (st : AllocState) (l : List Nat) : Bool :=
  nextChainToB st 0 l && prevChainB st 0 l &&
    (st.free_headp == l.headD 0) && (st.free_tailp == l.getLastD 0)

/-- Geometric sanity of a collection of free-list nodes: each sits at
address at least 8, fits below the address space, and distinct nodes are at
least 16 bytes apart (every free block spans at least a header, the two
link fields and a footer). -/
abbrev nodesOK (l : List Nat) : Prop :=
  (∀ a ∈ l, 8 ≤ a ∧ a + 16 < W32) ∧
    l.Pairwise (fun a b => a + 16 ≤ b ∨ b + 16 ≤ a)

/-- Well-formed free list: structure plus geometry. -/
abbrev freeListWF (st : AllocState) (l : List Nat) : Prop :=
  isFreeListB st l = true ∧ nodesOK l

/-- The address of a block's footer, as the code computes it:
`bp + get_size(bp) - 4`. -/
def footerAddr (st : AllocState) (bp : Nat) : Nat :=
  psub (padd bp (get_size st bp)) 4

/-- Heap traversal: hop from header to header via `get_next`, stopping at a
zero-size header (the epilogue). -/
def heapBlocksFrom (st : AllocState) : Nat → Nat → List Nat
  | 0, _ => []
  | fuel + 1, bp =>
    if get_size st bp = 0 then [] else bp :: heapBlocksFrom st fuel (get_next st bp)

/-- The blocks reachable by heap traversal from the prologue
(`heap_blocks`). -/
def reachableBlocks (st : AllocState) (fuel : Nat) : List Nat :=
  heapBlocksFrom st fuel st.heap_blocks

/-! ### Concrete states

A concrete machine: memory initially zero, region starting at address 0,
and a growth provider that always succeeds.  On it we run the public API
sequence used by several claims:
`init`; `a = allocate(8)` (payload 16); the client writes its own payload
words; `b = allocate(8)` (payload 32); `resize(b, 0)`;
`c = allocate(8)`; `resize(c, 24)`. -/

/-- Lookup-table memory: the word at each listed address, zero elsewhere. -/
def memOfPairs (ps : List (Nat × Nat)) : Nat → Nat :=
  fun a => ((ps.find? (fun p => p.1 == a)).map Prod.snd).getD 0

/-- Fresh machine, always-succeeding provider. -/
def initialState : AllocState :=
  { mem := fun _ => 0, brk := 0, heap_blocks := 0, free_headp := 0,
    free_tailp := 0, grow := fun _ _ => true }

/-- Fresh machine whose provider is exhausted (every `grow` fails). -/
def noGrowState : AllocState :=
  { mem := fun _ => 0, brk := 0, heap_blocks := 0, free_headp := 0,
    free_tailp := 0, grow := fun _ _ => false }

/-- Fresh machine whose provider grants only the initial 16-byte request
and refuses everything afterwards. -/
def firstGrowOnlyState : AllocState :=
  { mem := fun _ => 0, brk := 0, heap_blocks := 0, free_headp := 0,
    free_tailp := 0, grow := fun b s => b == 0 && s == 16 }

/-- State after `mm_init` on the fresh machine. -/
def stInit : AllocState := (mm_init initialState).2

/-- Result of `a = mm_malloc(8)`: payload pointer 16. -/
def allocA : Nat × AllocState := (mm_malloc stInit 8 9).getD (0, stInit)

/-- The client stores the words 1 and 9 into its own payload `a`
(addresses 16 and 20). -/
def stOwnData : AllocState := user_store (user_store allocA.2 16 1) 20 9

/-- Result of `b = mm_malloc(8)`: payload pointer 32. -/
def allocB : Nat × AllocState := (mm_malloc stOwnData 8 9).getD (0, stOwnData)

/-- State before the faulty `resize(b, 0)` call. -/
def stBeforeResize : AllocState := allocB.2

/-- State after `mm_realloc(b, 0)` (the free-equivalent path). -/
def stCorrupt : AllocState := ((mm_realloc stBeforeResize 32 0 9).getD (1, stBeforeResize)).2

/-- Result of `c = mm_malloc(8)` on the post-`resize(b,0)` heap. -/
def allocC : Nat × AllocState := (mm_malloc stCorrupt 8 9).getD (0, stCorrupt)

/-- Result of `mm_realloc(c, 24)` (the allocate–copy–free path). -/
def reszC : Option (Nat × AllocState) := mm_realloc allocC.2 28 24 9

/-- Heap for the coalescing counterexample: prologue at 4; an allocated
16-byte block at 12; the 984-byte block at 28 about to be freed; a free
16-byte block at 1012 (free-list head); an allocated 16-byte block at
1028; a free 16-byte block at 1044 (free-list tail); epilogue at 1060. -/
def stCoalesce : AllocState :=
  { mem := memOfPairs
      [(4, 9), (8, 9), (12, 17), (24, 17), (28, 985), (1008, 985),
       (1012, 16), (1016, 0), (1020, 1044), (1024, 16), (1028, 17),
       (1040, 17), (1044, 16), (1048, 1012), (1052, 0), (1056, 16),
       (1060, 1)],
    brk := 1064, heap_blocks := 4, free_headp := 1012, free_tailp := 1044,
    grow := fun _ _ => true }

/-- A three-node free list 100 ↔ 200 ↔ 300 (for `free_list_remove` of the
interior node 200). -/
def stThreeNodes : AllocState :=
  { mem := memOfPairs
      [(100, 272), (104, 0), (108, 200), (200, 16), (204, 100), (208, 300),
       (300, 280), (304, 200), (308, 0)],
    brk := 400, heap_blocks := 4, free_headp := 100, free_tailp := 300,
    grow := fun _ _ => true }

/-! ### Arithmetic and store helper lemmas -/

theorem padd_small {a b : Nat} (h : a + b < W32) : padd a b = a + b := by
  simp only [padd, W32] at *; omega

theorem psub_small {a b : Nat} (hb : b ≤ a) (ha : a < W32) : psub a b = a - b := by
  simp only [psub, W32] at *; omega

theorem decSize_enc {s a : Nat} (hs : s % 8 = 0) (ha : a < 8) :
    decSize (s + a) = s := by
  simp only [decSize]; omega

theorem decAlloc_enc {s a : Nat} (hs : s % 8 = 0) (ha : a < 2) :
    decAlloc (s + a) = a := by
  simp only [decAlloc]; omega

theorem decSize_mod8 (w : Nat) : decSize w % 8 = 0 := by
  simp only [decSize]; omega

theorem writeW_mem (st : AllocState) (a v c : Nat) :
    (writeW st a v).mem c = if c = a then v else st.mem c := rfl

/-! ### C1: termination of `allocate` under provider exhaustion -/

theorem find_fit_empty (st : AllocState) (h0 : st.free_headp = 0)
    (h1 : st.free_tailp = 0) (s fuel : Nat) : find_fit st s fuel = 0 := by
  unfold find_fit
  cases fuel <;> split <;> simp [ffLoopTail, ffLoopHead, h0, h1]

theorem extend_heap_fail (st : AllocState) (s : Nat)
    (hg : st.grow = fun _ _ => false) : extend_heap st s = (0, st) := by
  unfold extend_heap mem_sbrk
  rw [hg]
  rfl

theorem mmMallocLoop_stuck (r : Nat) (fuel : Nat) : ∀ st : AllocState,
    st.free_headp = 0 → st.free_tailp = 0 → (st.grow = fun _ _ => false) →
    mmMallocLoop r fuel st = none := by
  induction fuel with
  | zero => intro st _ _ _; rfl
  | succ f ih =>
    intro st h0 h1 hg
    unfold mmMallocLoop
    rw [extend_heap_fail st r hg]
    dsimp only
    rw [find_fit_empty st h0 h1 r (f + 1)]
    simpa using ih st h0 h1 hg

/-- C1.  The claim asserts that `allocate` terminates even when the Region
Growth Provider is exhausted, propagating the failure as a null return.
The code does the opposite: `mm_malloc`'s `while(1)` loop ignores
`extend_heap`'s null return and retries forever.  Formally: on any state
with an empty free list and an exhausted provider, for every fuel bound the
call fails to return (never produces a result, in particular never the
null pointer the claim requires). -/
theorem mm_malloc_diverges_on_exhaustion (st : AllocState) (n : Nat)
    (h0 : st.free_headp = 0) (h1 : st.free_tailp = 0)
    (hg : st.grow = fun _ _ => false) (hn : n ≠ 0) :
    ∀ fuel, mm_malloc st n fuel = none := by
  intro fuel
  unfold mm_malloc
  rw [if_neg hn]
  dsimp only
  rw [find_fit_empty st h0 h1 (required_block_size n) fuel]
  simpa using mmMallocLoop_stuck (required_block_size n) fuel st h0 h1 hg

/-- C1 witness: the divergence theorem applied on the concrete exhausted
machine, request 5, fuel 7. -/
theorem mm_malloc_diverges_on_exhaustion_witness :
    (noGrowState.free_headp = 0 ∧ noGrowState.free_tailp = 0 ∧
      noGrowState.grow = (fun _ _ => false) ∧ (5 : Nat) ≠ 0) ∧
      mm_malloc noGrowState 5 7 = none :=
  ⟨⟨rfl, rfl, rfl, by decide⟩,
    mm_malloc_diverges_on_exhaustion noGrowState 5 rfl rfl rfl (by decide) 7⟩

/-! ### C9: `mm_init` and provider failure -/

/-- C9.  `mm_init` returns -1 exactly when the provider refuses the initial
16-byte region; if that region is granted, it returns 0 no matter what
happens to the subsequent 200-byte extension (whose result the code
ignores). -/
theorem mm_init_fails_iff_first_grow_fails (st : AllocState) :
    ((mm_init st).1 = -1 ↔ st.grow st.brk 16 = false) ∧
      (st.grow st.brk 16 = true → (mm_init st).1 = 0) := by
  unfold mm_init mem_sbrk
  cases hg : st.grow st.brk 16 <;> simp [hg]

/-- C9 witness: on the machine whose provider grants only the first
16-byte request, `init` succeeds (the failed 200-byte extension is
ignored); on the exhausted machine it returns -1. -/
theorem mm_init_fails_iff_first_grow_fails_witness :
    (mm_init firstGrowOnlyState).1 = 0 ∧ (mm_init noGrowState).1 = -1 :=
  ⟨(mm_init_fails_iff_first_grow_fails firstGrowOnlyState).2 (by decide),
    (mm_init_fails_iff_first_grow_fails noGrowState).1.mpr (by decide)⟩

/-! ### C2: `resize(p, 0)` versus `free(p)` -/

/-- C2 is violated: on the concrete heap `stBeforeResize` (reached by
`init`; `a = allocate(8)` → 16; client stores; `b = allocate(8)` → 32),
`mm_realloc(32, 0)` does return null, but its effect differs from
`mm_free(32)`.  The code passes the header pointer `hptr` — not the
payload pointer — to `mm_free`, so `free_coalesce` runs on address 24
(block `a`'s footer) instead of 28 (block `b`'s header).  Afterwards `b`'s
header word is 0 (clobbered by a free-list field write of the bogus node
24) and the free-list head is the bogus node 24, whereas a real
`mm_free(32)` coalesces `b` into a 184-byte free block headed at 28. -/
theorem resize_zero_differs_from_free :
    (mm_realloc stBeforeResize 32 0 9).map
        (fun r => (r.1, r.2.mem 28, r.2.free_headp)) = some (0, 0, 24) ∧
      (mm_free stBeforeResize 32).mem 28 = 184 ∧
      (mm_free stBeforeResize 32).free_headp = 28 ∧
      ((0 : Nat) ≠ 184 ∧ (24 : Nat) ≠ 28) := by
  refine ⟨by decide, by decide, by decide, by decide⟩

/-! ### C3: `resize(null, n)` versus `allocate(n)` -/

/-- C3 is violated: `mm_realloc` computes `hptr = (BlockHeader *)ptr - 1`
before its null test and then tests `hptr == NULL`, which is false for
`ptr == NULL` (`hptr` is address `2^32 - 4`).  On the freshly initialised
heap, `resize(null, 4)` therefore does not take the `mm_malloc` branch: it
reads block metadata derived from the null pointer, and although it happens
to return the same payload pointer 16 as `allocate(4)`, it leaves a
different heap — the prologue header at address 4 is zeroed and the
free-list head becomes the garbage value 9, while `allocate(4)` leaves the
prologue word 9 intact and heads the list at 28. -/
theorem resize_null_differs_from_malloc :
    (mm_realloc stInit 0 4 9).map
        (fun r => (r.1, r.2.mem 4, r.2.free_headp)) = some (16, 0, 9) ∧
      (mm_malloc stInit 4 9).map
        (fun r => (r.1, r.2.mem 4, r.2.free_headp)) = some (16, 9, 28) ∧
      ((0 : Nat) ≠ 9 ∧ (9 : Nat) ≠ 28) := by
  refine ⟨by decide, by decide, by decide⟩

/-! ### C7: header/footer agreement at quiescent points -/

/-- C7 is violated at a quiescent point: after the `resize(b, 0)` call of
the C2 scenario returns (null, as recorded in the first conjunct), block
`a` at address 12 is reachable by heap traversal from the prologue, its
header decodes to `(16, allocated)`, but its footer decodes to
`(16, free)` — `free_coalesce` ran 4 bytes early and rewrote `a`'s footer
as the header of a bogus free block. -/
theorem header_footer_disagree_after_resize :
    (mm_realloc stBeforeResize 32 0 9).map (fun r => r.1) = some 0 ∧
      12 ∈ reachableBlocks stCorrupt 9 ∧
      get_size stCorrupt 12 = 16 ∧ get_allocated stCorrupt 12 = 1 ∧
      get_size stCorrupt (footerAddr stCorrupt 12) = 16 ∧
      get_allocated stCorrupt (footerAddr stCorrupt 12) = 0 := by
  refine ⟨by decide, by decide, by decide, by decide, by decide, by decide⟩

/-! ### C8: payload integrity across `resize` -/

/-- C8 is violated on the allocate–copy–free path: continuing the same
API trace, `c = allocate(8)` returns payload 28 (an allocated block of
size 16, old payload size 8, words 0 and 0), and `resize(c, 24)` returns
the fresh payload 184 — but the first word of the new payload is 136, not
0: `mm_malloc` inside `resize` coalesced a leftover into the corrupted
bogus block and wrote the free-block header 136 into `c`'s payload before
`memcpy` copied `min(8, 24) = 8` bytes from it. -/
theorem resize_copy_corrupts_payload :
    (mm_malloc stCorrupt 8 9).map (fun r => r.1) = some 28 ∧
      get_size allocC.2 24 = 16 ∧ get_allocated allocC.2 24 = 1 ∧
      allocC.2.mem 28 = 0 ∧ allocC.2.mem 32 = 0 ∧
      (mm_realloc allocC.2 28 24 9).map
        (fun r => (r.1, r.2.mem 184, r.2.mem 188)) = some (184, 136, 0) ∧
      ((136 : Nat) ≠ 0) := by
  refine ⟨by decide, by decide, by decide, by decide, by decide, by decide,
    by decide⟩

/-! ### C10: 8-byte alignment of returned payload pointers -/

/-- C10 is violated: continuing after the faulty `resize(b, 0)` (first
conjunct: it returned null), the very next `allocate(8)` returns the
payload pointer 28, and `28 % 8 = 4` — the free list now contains the
bogus node 24 (at distance 4 mod 8 from a real header), `find_fit` serves
it, and the payload is not 8-byte aligned. -/
theorem malloc_returns_misaligned_payload :
    (mm_realloc stBeforeResize 32 0 9).map (fun r => r.1) = some 0 ∧
      (mm_malloc stCorrupt 8 9).map (fun r => r.1) = some 28 ∧
      28 % 8 = 4 := by
  refine ⟨by decide, by decide, by decide⟩

/-! ### C5: `free_list_remove` nulling the removed node's fields -/

/-- C5 counterexample: on the well-formed three-node list
100 ↔ 200 ↔ 300, removing the interior node 200 leaves its own
`prev_free`/`next_free` fields pointing at its former neighbours 100 and
300 — they are not nulled as the claim asserts for the interior case. -/
theorem remove_interior_keeps_own_links :
    isFreeListB stThreeNodes [100, 200, 300] = true ∧
      (free_list_remove stThreeNodes 200).mem 204 = 100 ∧
      (free_list_remove stThreeNodes 200).mem 208 = 300 ∧
      ((100 : Nat) ≠ 0 ∧ (300 : Nat) ≠ 0) := by
  refine ⟨by decide, by decide, by decide, by decide⟩

/-- C5 amended.  `free_list_remove(bp)` nulls `bp`'s own
`prev_free`/`next_free` fields whenever at least one of them is null on
entry — that is, in the sole-element, head and tail cases; in the interior
case (both links non-null, the counterexample) the code leaves `bp`'s own
fields untouched. -/
theorem free_list_remove_nulls_at_ends (st : AllocState) (bp : Nat)
    (hbnd : bp + 16 < W32)
    (h : st.mem (bp + 4) = 0 ∨ st.mem (bp + 8) = 0) :
    (free_list_remove st bp).mem (bp + 4) = 0 ∧
      (free_list_remove st bp).mem (bp + 8) = 0 := by
  have h4 : padd bp 4 = bp + 4 := padd_small (by omega)
  have h8 : padd bp 8 = bp + 8 := padd_small (by omega)
  simp only [free_list_remove, get_prev_free, get_next_free, set_prev_free,
    set_next_free, readW, writeW, h4, h8]
  split_ifs with h1 h2 h3 <;>
    simp only [] <;>
    constructor <;>
    split_ifs <;>
    first
      | rfl
      | omega

/-- C5 amended witness: removing the head node 100 of the three-node list
(its `prev_free` is null on entry) nulls both of its own fields. -/
theorem free_list_remove_nulls_at_ends_witness :
    ((100 : Nat) + 16 < W32 ∧ stThreeNodes.mem 104 = 0) ∧
      (free_list_remove stThreeNodes 100).mem 104 = 0 ∧
      (free_list_remove stThreeNodes 100).mem 108 = 0 :=
  ⟨⟨by decide, by decide⟩,
    free_list_remove_nulls_at_ends stThreeNodes 100 (by decide)
      (Or.inl (by decide))⟩

/-! ### C6: `find_fit` search direction and completeness -/

/-- C6 counterexample: the claim says requests of at least 270 bytes
search from the tail.  At exactly 270 the code takes the head-directed
branch (`size > 270` is false): on the well-formed list
[100 (size 272), 200 (size 16), 300 (size 280)], `find_fit(270)` returns
the head-side block 100, whereas the tail-directed search returns 300. -/
theorem find_fit_at_270_goes_from_head :
    isFreeListB stThreeNodes [100, 200, 300] = true ∧
      find_fit stThreeNodes 270 9 = 100 ∧
      ffLoopTail stThreeNodes 270 9 stThreeNodes.free_tailp = 300 ∧
      ((100 : Nat) ≠ 300) := by
  refine ⟨by decide, by decide, by decide, by decide⟩

/-! ### Doubly linked free-list infrastructure -/

theorem writeW_headp (st : AllocState) (a v : Nat) :
    (writeW st a v).free_headp = st.free_headp := rfl

theorem writeW_tailp (st : AllocState) (a v : Nat) :
    (writeW st a v).free_tailp = st.free_tailp := rfl

theorem mem_fieldCells {c : Nat} {l : List Nat} :
    c ∈ fieldCells l ↔ ∃ a ∈ l, c = a + 4 ∨ c = a + 8 := by
  simp [fieldCells]

theorem mem_prevCells {c : Nat} {l : List Nat} :
    c ∈ prevCells l ↔ ∃ a ∈ l, a + 4 = c := by
  simp [prevCells]

theorem mem_nextCells {c : Nat} {l : List Nat} :
    c ∈ nextCells l ↔ ∃ a ∈ l, a + 8 = c := by
  simp [nextCells]

theorem isFreeListB_iff {st : AllocState} {l : List Nat} :
    isFreeListB st l = true ↔
      nextChainToB st 0 l = true ∧ prevChainB st 0 l = true ∧
        st.free_headp = l.headD 0 ∧ st.free_tailp = l.getLastD 0 := by
  simp [isFreeListB, Bool.and_eq_true, beq_iff_eq, and_assoc]

theorem getLastD_irrel {l : List Nat} (h : l ≠ []) (d d' : Nat) :
    l.getLastD d = l.getLastD d' := by
  rw [List.getLastD_eq_getLast?, List.getLastD_eq_getLast?,
    List.getLast?_eq_getLast l h]
  rfl

theorem headD_append_left {l1 l2 : List Nat} (h : l1 ≠ []) (d : Nat) :
    (l1 ++ l2).headD d = l1.headD d := by
  cases l1 with
  | nil => exact absurd rfl h
  | cons a r => rfl

theorem getLastD_append_right {l1 l2 : List Nat} (h : l2 ≠ []) (d : Nat) :
    (l1 ++ l2).getLastD d = l2.getLastD d := by
  induction l1 with
  | nil => rfl
  | cons a r ih =>
    have hne : r ++ l2 ≠ [] := fun hh => h (List.append_eq_nil.mp hh).2
    rw [List.cons_append, List.getLastD_cons]
    calc (r ++ l2).getLastD a = (r ++ l2).getLastD d := getLastD_irrel hne a d
      _ = l2.getLastD d := ih

theorem prevChainB_ne_zero {st : AllocState} {p : Nat} {l : List Nat}
    (h : prevChainB st p l = true) : ∀ a ∈ l, a ≠ 0 := by
  induction l generalizing p with
  | nil => intro a ha; cases ha
  | cons b r ih =>
    simp only [prevChainB, Bool.and_eq_true, bne_iff_ne, ne_eq] at h
    intro a ha
    rcases List.mem_cons.mp ha with rfl | ha'
    · exact h.1.1
    · exact ih h.2 a ha'

theorem nextChainToB_writeW (st : AllocState) (e c v : Nat) (l : List Nat)
    (hc : c ∉ nextCells l) :
    nextChainToB (writeW st c v) e l = nextChainToB st e l := by
  induction l with
  | nil => rfl
  | cons a r ih =>
    have hca : ¬(a + 8 = c) := fun hh => hc (mem_nextCells.mpr ⟨a, List.mem_cons_self a r, hh⟩)
    have hcr : c ∉ nextCells r := fun hh => by
      rcases mem_nextCells.mp hh with ⟨b, hb, hbe⟩
      exact hc (mem_nextCells.mpr ⟨b, List.mem_cons_of_mem a hb, hbe⟩)
    cases r with
    | nil => simp [nextChainToB, writeW, hca]
    | cons b s =>
      simp only [nextChainToB, writeW]
      rw [if_neg hca]
      have := ih hcr
      simp only [nextChainToB, writeW] at this
      rw [this]

theorem prevChainB_writeW (st : AllocState) (p c v : Nat) (l : List Nat)
    (hc : c ∉ prevCells l) :
    prevChainB (writeW st c v) p l = prevChainB st p l := by
  induction l generalizing p with
  | nil => rfl
  | cons a r ih =>
    have hca : ¬(a + 4 = c) := fun hh => hc (mem_prevCells.mpr ⟨a, List.mem_cons_self a r, hh⟩)
    have hcr : c ∉ prevCells r := fun hh => by
      rcases mem_prevCells.mp hh with ⟨b, hb, hbe⟩
      exact hc (mem_prevCells.mpr ⟨b, List.mem_cons_of_mem a hb, hbe⟩)
    simp only [prevChainB]
    rw [writeW_mem, if_neg hca, ih a hcr]

theorem nextChainToB_append (st : AllocState) (e : Nat) (l1 l2 : List Nat) :
    nextChainToB st e (l1 ++ l2) =
      (nextChainToB st (l2.headD e) l1 && nextChainToB st e l2) := by
  induction l1 with
  | nil => simp [nextChainToB]
  | cons a r ih =>
    cases r with
    | nil =>
      cases l2 with
      | nil => simp [nextChainToB]
      | cons b s => simp [nextChainToB, Bool.and_assoc]
    | cons a' r' =>
      simp only [List.cons_append] at *
      simp only [nextChainToB, ih, Bool.and_assoc]

theorem prevChainB_append (st : AllocState) (p : Nat) (l1 l2 : List Nat) :
    prevChainB st p (l1 ++ l2) =
      (prevChainB st p l1 && prevChainB st (l1.getLastD p) l2) := by
  induction l1 generalizing p with
  | nil => simp [prevChainB]
  | cons a r ih =>
    simp only [List.cons_append, prevChainB, List.getLastD_cons,
      List.append_eq, Bool.and_assoc, ih]

theorem notin_cellsSet {x off : Nat} {l : List Nat} (hoff : off ≤ 8)
    (h : ∀ a ∈ l, a + 16 ≤ x ∨ x + 16 ≤ a) : x + off ∉ fieldCells l := by
  intro hc
  rcases mem_fieldCells.mp hc with ⟨a, ha, hae⟩
  rcases h a ha with h' | h' <;> omega

theorem notin_prevCells {x off : Nat} {l : List Nat} (hoff : off ≤ 8)
    (h : ∀ a ∈ l, a + 16 ≤ x ∨ x + 16 ≤ a) : x + off ∉ prevCells l := by
  intro hc
  rcases mem_prevCells.mp hc with ⟨a, ha, hae⟩
  rcases h a ha with h' | h' <;> omega

theorem notin_nextCells {x off : Nat} {l : List Nat} (hoff : off ≤ 8)
    (h : ∀ a ∈ l, a + 16 ≤ x ∨ x + 16 ≤ a) : x + off ∉ nextCells l := by
  intro hc
  rcases mem_nextCells.mp hc with ⟨a, ha, hae⟩
  rcases h a ha with h' | h' <;> omega

theorem getLastD_mem {l : List Nat} (h : l ≠ []) (d : Nat) :
    l.getLastD d ∈ l := by
  rw [List.getLastD_eq_getLast?, List.getLast?_eq_getLast l h]
  exact List.getLast_mem h

theorem ffLoopHead_zero_ptr (st : AllocState) (size fuel : Nat) :
    ffLoopHead st size fuel 0 = 0 := by
  cases fuel <;> rfl

theorem ffLoopTail_zero_ptr (st : AllocState) (size fuel : Nat) :
    ffLoopTail st size fuel 0 = 0 := by
  cases fuel <;> rfl

theorem ffLoopHead_succ (st : AllocState) (size f hptr : Nat) (h : hptr ≠ 0) :
    ffLoopHead st size (f + 1) hptr =
      (let bSize := get_size st hptr
       if bSize ≥ size then
         if get_next_free st hptr ≠ 0 then
           let nSize := get_size st (get_next_free st hptr)
           if nSize < bSize ∧ nSize ≥ size then get_next_free st hptr else hptr
         else hptr
       else ffLoopHead st size f (get_next_free st hptr)) := by
  cases hptr with
  | zero => exact absurd rfl h
  | succ n => rfl

theorem ffLoopTail_succ (st : AllocState) (size f hptr : Nat) (h : hptr ≠ 0) :
    ffLoopTail st size (f + 1) hptr =
      (let bSize := get_size st hptr
       if bSize ≥ size then
         if get_prev_free st hptr ≠ 0 then
           let nSize := get_size st (get_prev_free st hptr)
           if nSize < bSize ∧ nSize ≥ size then get_prev_free st hptr else hptr
         else hptr
       else ffLoopTail st size f (get_prev_free st hptr)) := by
  cases hptr with
  | zero => exact absurd rfl h
  | succ n => rfl


theorem nextChainToB_cons_ne {st : AllocState} {e a : Nat} {r : List Nat}
    (h : nextChainToB st e (a :: r) = true) : a ≠ 0 := by
  cases r <;>
    simp only [nextChainToB, Bool.and_eq_true, bne_iff_ne, ne_eq] at h <;>
    tauto

theorem nextChainToB_cons_link {st : AllocState} {e a : Nat} {r : List Nat}
    (h : nextChainToB st e (a :: r) = true) : st.mem (a + 8) = r.headD e := by
  cases r <;>
    simp only [nextChainToB, Bool.and_eq_true, beq_iff_eq, List.headD] at h ⊢ <;>
    tauto

theorem nextChainToB_cons_tail {st : AllocState} {e a : Nat} {r : List Nat}
    (h : nextChainToB st e (a :: r) = true) : nextChainToB st e r = true := by
  cases r with
  | nil => rfl
  | cons b s =>
    simp only [nextChainToB, Bool.and_eq_true] at h
    exact h.2

theorem prevChainB_cons_ne {st : AllocState} {p a : Nat} {r : List Nat}
    (h : prevChainB st p (a :: r) = true) : a ≠ 0 := by
  simp only [prevChainB, Bool.and_eq_true, bne_iff_ne, ne_eq] at h
  tauto

theorem prevChainB_cons_link {st : AllocState} {p a : Nat} {r : List Nat}
    (h : prevChainB st p (a :: r) = true) : st.mem (a + 4) = p := by
  simp only [prevChainB, Bool.and_eq_true, beq_iff_eq] at h
  tauto

theorem prevChainB_cons_tail {st : AllocState} {p a : Nat} {r : List Nat}
    (h : prevChainB st p (a :: r) = true) : prevChainB st a r = true := by
  simp only [prevChainB, Bool.and_eq_true] at h
  tauto

theorem nextChainToB_cons_intro {st : AllocState} {e a b : Nat} {r : List Nat}
    (ha : a ≠ 0) (hl : st.mem (a + 8) = b)
    (ht : nextChainToB st e (b :: r) = true) :
    nextChainToB st e (a :: b :: r) = true := by
  simp [nextChainToB, ha, hl, ht]

theorem nextChainToB_single_intro {st : AllocState} {e a : Nat}
    (ha : a ≠ 0) (hl : st.mem (a + 8) = e) :
    nextChainToB st e [a] = true := by
  simp [nextChainToB, ha, hl]

theorem prevChainB_cons_intro {st : AllocState} {p a : Nat} {r : List Nat}
    (ha : a ≠ 0) (hl : st.mem (a + 4) = p)
    (ht : prevChainB st a r = true) :
    prevChainB st p (a :: r) = true := by
  simp [prevChainB, ha, hl, ht]

theorem ffLoopHead_spec (st : AllocState) (size : Nat) (l : List Nat) :
    ∀ fuel : Nat, nextChainToB st 0 l = true →
      (∀ a ∈ l, a + 16 < W32) → l.length ≤ fuel →
      (ffLoopHead st size fuel (l.headD 0) = 0 ↔
        ∀ a ∈ l, get_size st a < size) ∧
      (ffLoopHead st size fuel (l.headD 0) ≠ 0 →
        ffLoopHead st size fuel (l.headD 0) ∈ l ∧
          size ≤ get_size st (ffLoopHead st size fuel (l.headD 0))) := by
  induction l with
  | nil =>
    intro fuel _ _ _
    simp [ffLoopHead_zero_ptr]
  | cons a r ih =>
    intro fuel hchain hbnd hfuel
    obtain ⟨f, rfl⟩ : ∃ f, fuel = f + 1 := by
      cases fuel with
      | zero => simp at hfuel
      | succ f => exact ⟨f, rfl⟩
    have hbnda : a + 16 < W32 := hbnd a (List.mem_cons_self a r)
    have hane : a ≠ 0 := nextChainToB_cons_ne hchain
    have hnf : get_next_free st a = r.headD 0 := by
      simp only [get_next_free, readW, padd_small (by omega : a + 8 < W32)]
      exact nextChainToB_cons_link hchain
    have hchr : nextChainToB st 0 r = true := nextChainToB_cons_tail hchain
    rw [List.headD_cons, ffLoopHead_succ st size f a hane]
    by_cases hsz : get_size st a ≥ size
    · rw [if_pos hsz]
      cases r with
      | nil =>
        rw [hnf]
        rw [if_neg (by simp : ¬(List.headD ([] : List Nat) 0 ≠ 0))]
        refine ⟨⟨fun h0 => absurd h0 hane, fun hall => ?_⟩,
          fun _ => ⟨List.mem_cons_self a [], hsz⟩⟩
        exact absurd (hall a (List.mem_cons_self a [])) (by omega)
      | cons b s =>
        have hbne : b ≠ 0 := nextChainToB_cons_ne hchr
        rw [hnf, List.headD_cons, if_pos (hbne : (b : Nat) ≠ 0)]
        by_cases hpk : get_size st b < get_size st a ∧ get_size st b ≥ size
        · rw [if_pos hpk]
          refine ⟨⟨fun h0 => absurd h0 hbne, fun hall => ?_⟩,
            fun _ => ⟨List.mem_cons_of_mem a (List.mem_cons_self b s), hpk.2⟩⟩
          exact absurd (hall a (List.mem_cons_self a (b :: s))) (by omega)
        · rw [if_neg hpk]
          refine ⟨⟨fun h0 => absurd h0 hane, fun hall => ?_⟩,
            fun _ => ⟨List.mem_cons_self a (b :: s), hsz⟩⟩
          exact absurd (hall a (List.mem_cons_self a (b :: s))) (by omega)
    · rw [if_neg hsz, hnf]
      have hlen : r.length ≤ f := by
        simp only [List.length_cons] at hfuel; omega
      have hr := ih f hchr (fun x hx => hbnd x (List.mem_cons_of_mem a hx)) hlen
      constructor
      · constructor
        · intro h0 x hx
          rcases List.mem_cons.mp hx with rfl | hx'
          · omega
          · exact (hr.1.mp h0) x hx'
        · intro hall
          exact hr.1.mpr (fun x hx => hall x (List.mem_cons_of_mem a hx))
      · intro hne
        obtain ⟨hm, hs⟩ := hr.2 hne
        exact ⟨List.mem_cons_of_mem a hm, hs⟩

theorem ffLoopTail_spec (st : AllocState) (size : Nat) (l : List Nat) :
    ∀ fuel : Nat, prevChainB st 0 l = true →
      (∀ a ∈ l, a + 16 < W32) → l.length ≤ fuel →
      (ffLoopTail st size fuel (l.getLastD 0) = 0 ↔
        ∀ a ∈ l, get_size st a < size) ∧
      (ffLoopTail st size fuel (l.getLastD 0) ≠ 0 →
        ffLoopTail st size fuel (l.getLastD 0) ∈ l ∧
          size ≤ get_size st (ffLoopTail st size fuel (l.getLastD 0))) := by
  induction l using List.reverseRecOn with
  | nil =>
    intro fuel _ _ _
    simp [ffLoopTail_zero_ptr]
  | append_singleton l t ih =>
    intro fuel hchain hbnd hfuel
    obtain ⟨f, rfl⟩ : ∃ f, fuel = f + 1 := by
      cases fuel with
      | zero => simp at hfuel
      | succ f => exact ⟨f, rfl⟩
    rw [prevChainB_append] at hchain
    simp only [Bool.and_eq_true] at hchain
    obtain ⟨hchl, hcht⟩ := hchain
    have htne : t ≠ 0 := prevChainB_cons_ne hcht
    have htlink : st.mem (t + 4) = l.getLastD 0 := prevChainB_cons_link hcht
    have hbndt : t + 16 < W32 := hbnd t (by simp)
    have hlast : (l ++ [t]).getLastD 0 = t := by
      rw [getLastD_append_right (by simp) 0]; rfl
    have hpf : get_prev_free st t = l.getLastD 0 := by
      simp only [get_prev_free, readW, padd_small (by omega : t + 4 < W32)]
      exact htlink
    rw [hlast, ffLoopTail_succ st size f t htne]
    by_cases hsz : get_size st t ≥ size
    · rw [if_pos hsz]
      cases l with
      | nil =>
        rw [hpf]
        rw [if_neg (by simp : ¬(List.getLastD ([] : List Nat) 0 ≠ 0))]
        refine ⟨⟨fun h0 => absurd h0 htne, fun hall => ?_⟩,
          fun _ => ⟨by simp, hsz⟩⟩
        exact absurd (hall t (by simp)) (by omega)
      | cons c l' =>
        have hune : (c :: l').getLastD 0 ≠ 0 :=
          prevChainB_ne_zero hchl _ (getLastD_mem (by simp) 0)
        have humem : (c :: l').getLastD 0 ∈ c :: l' := getLastD_mem (by simp) 0
        rw [hpf, if_pos hune]
        by_cases hpk : get_size st ((c :: l').getLastD 0) < get_size st t ∧
            get_size st ((c :: l').getLastD 0) ≥ size
        · rw [if_pos hpk]
          refine ⟨⟨fun h0 => absurd h0 hune, fun hall => ?_⟩,
            fun _ => ⟨List.mem_append_left [t] humem, hpk.2⟩⟩
          exact absurd (hall t (by simp)) (by omega)
        · rw [if_neg hpk]
          refine ⟨⟨fun h0 => absurd h0 htne, fun hall => ?_⟩,
            fun _ => ⟨by simp, hsz⟩⟩
          exact absurd (hall t (by simp)) (by omega)
    · rw [if_neg hsz, hpf]
      have hlen : l.length ≤ f := by
        simp only [List.length_append, List.length_cons, List.length_nil] at hfuel
        omega
      have hr := ih f hchl (fun x hx => hbnd x (List.mem_append_left [t] hx)) hlen
      constructor
      · constructor
        · intro h0 x hx
          rcases List.mem_append.mp hx with hx' | hx'
          · exact (hr.1.mp h0) x hx'
          · have hxt : x = t := by simpa using hx'
            subst hxt
            omega
        · intro hall
          exact hr.1.mpr (fun x hx => hall x (List.mem_append_left [t] hx))
      · intro hne
        obtain ⟨hm, hs⟩ := hr.2 hne
        exact ⟨List.mem_append_left [t] hm, hs⟩

/-- C6 (amended).  On a well-formed free list, `find_fit` walks from the tail
via `prev` links when the adjusted request is STRICTLY greater than 270 and
from the head via `next` links otherwise (at exactly 270 it goes from the
head); it returns 0 iff no listed block has size ≥ the request, and a nonzero
result is a listed block of size ≥ the request. -/
theorem find_fit_spec (st : AllocState) (l : List Nat) (size fuel : Nat)
    (hwf : freeListWF st l) (hfuel : l.length ≤ fuel) :
    (270 < size → find_fit st size fuel = ffLoopTail st size fuel st.free_tailp) ∧
      (size ≤ 270 → find_fit st size fuel = ffLoopHead st size fuel st.free_headp) ∧
      (find_fit st size fuel = 0 ↔ ∀ a ∈ l, get_size st a < size) ∧
      (find_fit st size fuel ≠ 0 →
        find_fit st size fuel ∈ l ∧ size ≤ get_size st (find_fit st size fuel)) := by
  obtain ⟨hlist, hnodes⟩ := hwf
  rw [isFreeListB_iff] at hlist
  obtain ⟨hnext, hprev, hhead, htail⟩ := hlist
  have hbnd : ∀ a ∈ l, a + 16 < W32 := fun a ha => (hnodes.1 a ha).2
  refine ⟨?_, ?_, ?_⟩
  · intro h
    unfold find_fit
    rw [if_pos h]
  · intro h
    unfold find_fit
    rw [if_neg (by omega : ¬ 270 < size)]
  by_cases h270 : 270 < size
  · have hsp := ffLoopTail_spec st size l fuel hprev hbnd hfuel
    rw [← htail] at hsp
    simpa [find_fit, h270] using hsp
  · have hsp := ffLoopHead_spec st size l fuel hnext hbnd hfuel
    rw [← hhead] at hsp
    simpa [find_fit, h270] using hsp

/-- C6 witness: on the three-node list [100, 200, 300] with sizes
[272, 16, 280], a request of 272 (> 270) searches from the tail and returns
300, even though the head-side block 100 would also fit. -/
theorem find_fit_spec_witness :
    (freeListWF stThreeNodes [100, 200, 300] ∧
        ([100, 200, 300] : List Nat).length ≤ 9) ∧
      find_fit stThreeNodes 272 9 ∈ ([100, 200, 300] : List Nat) ∧
        272 ≤ get_size stThreeNodes (find_fit stThreeNodes 272 9) :=
  ⟨⟨by decide, by decide⟩,
    (find_fit_spec stThreeNodes [100, 200, 300] 272 9 (by decide)
      (by decide)).2.2.2 (by decide)⟩

theorem nextChainToB_eqOn {st st' : AllocState} {e : Nat} {l : List Nat}
    (h : ∀ a ∈ l, st.mem (a + 8) = st'.mem (a + 8)) :
    nextChainToB st e l = nextChainToB st' e l := by
  induction l with
  | nil => rfl
  | cons a r ih =>
    have ha := h a (List.mem_cons_self a r)
    have hr := ih (fun x hx => h x (List.mem_cons_of_mem a hx))
    cases r with
    | nil => simp only [nextChainToB, ha]
    | cons b s =>
      simp only [nextChainToB, ha, hr]

theorem prevChainB_eqOn {st st' : AllocState} {l : List Nat}
    (h : ∀ a ∈ l, st.mem (a + 4) = st'.mem (a + 4)) (p : Nat) :
    prevChainB st p l = prevChainB st' p l := by
  induction l generalizing p with
  | nil => rfl
  | cons a r ih =>
    have ha := h a (List.mem_cons_self a r)
    have hr := ih (fun x hx => h x (List.mem_cons_of_mem a hx)) a
    simp only [prevChainB, ha, hr]

theorem nodes_apart_of_pairwise {l1 l2 : List Nat} {bp : Nat}
    (hpw : (l1 ++ bp :: l2).Pairwise (fun a b => a + 16 ≤ b ∨ b + 16 ≤ a)) :
    ∀ a ∈ l1 ++ l2, a + 16 ≤ bp ∨ bp + 16 ≤ a := by
  rw [List.pairwise_append] at hpw
  obtain ⟨hp1, hp2, hcross⟩ := hpw
  rw [List.pairwise_cons] at hp2
  intro a ha
  rcases List.mem_append.mp ha with ha' | ha'
  · exact hcross a ha' bp (List.mem_cons_self bp l2)
  · rcases hp2.1 a ha' with h | h
    · omega
    · omega

theorem free_list_remove_sole (st : AllocState) (bp : Nat)
    (h4 : get_prev_free st bp = 0) (h8 : get_next_free st bp = 0) :
    free_list_remove st bp =
      set_next_free
        (set_prev_free { st with free_headp := 0, free_tailp := 0 } bp 0)
        bp 0 := by
  unfold free_list_remove
  rw [h4, h8]
  simp

theorem free_list_remove_head_eq (st : AllocState) (bp c : Nat)
    (h4 : get_prev_free st bp = 0) (h8 : get_next_free st bp = c)
    (hc : c ≠ 0) :
    free_list_remove st bp =
      set_next_free
        { set_prev_free st c 0 with
            free_headp := get_next_free (set_prev_free st c 0) bp } bp 0 := by
  unfold free_list_remove
  rw [h4, h8]
  simp [hc]

theorem free_list_remove_tail_eq (st : AllocState) (bp u : Nat)
    (h4 : get_prev_free st bp = u) (h8 : get_next_free st bp = 0)
    (hu : u ≠ 0) :
    free_list_remove st bp =
      set_prev_free
        { set_next_free st u 0 with
            free_tailp := get_prev_free (set_next_free st u 0) bp } bp 0 := by
  unfold free_list_remove
  rw [h4, h8]
  simp [hu]

theorem free_list_remove_interior_eq (st : AllocState) (bp u c : Nat)
    (h4 : get_prev_free st bp = u) (h8 : get_next_free st bp = c)
    (hu : u ≠ 0) (hc : c ≠ 0) :
    free_list_remove st bp =
      set_prev_free (set_next_free st u c)
        (get_next_free (set_next_free st u c) bp)
        (get_prev_free (set_next_free st u c) bp) := by
  unfold free_list_remove
  rw [h4, h8]
  simp [hu, hc]

theorem free_list_prepend_empty_eq (st : AllocState) (bp : Nat)
    (hh : st.free_headp = 0) (ht : st.free_tailp = 0) :
    free_list_prepend st bp =
      { set_next_free (set_prev_free st bp 0) bp 0 with
          free_headp := bp, free_tailp := bp } := by
  unfold free_list_prepend
  simp [hh, ht]

theorem free_list_prepend_nonempty_eq (st : AllocState) (bp : Nat)
    (hh : st.free_headp ≠ 0 ∨ st.free_tailp ≠ 0) :
    free_list_prepend st bp =
      { set_prev_free (set_next_free (set_prev_free st bp 0) bp
            (set_prev_free st bp 0).free_headp)
          (set_next_free (set_prev_free st bp 0) bp
            (set_prev_free st bp 0).free_headp).free_headp bp with
          free_headp := bp } := by
  unfold free_list_prepend
  rw [if_pos hh]

theorem free_list_append_empty_eq (st : AllocState) (bp : Nat)
    (hh : st.free_headp = 0) (ht : st.free_tailp = 0) :
    free_list_append st bp =
      { set_next_free (set_prev_free st bp 0) bp 0 with
          free_headp := bp, free_tailp := bp } := by
  unfold free_list_append
  simp [hh, ht]

theorem free_list_append_nonempty_eq (st : AllocState) (bp : Nat)
    (hh : st.free_headp ≠ 0 ∨ st.free_tailp ≠ 0) :
    free_list_append st bp =
      { set_prev_free
          (set_next_free (set_next_free st bp 0)
            (set_next_free st bp 0).free_tailp bp)
          bp
          (set_next_free (set_next_free st bp 0)
            (set_next_free st bp 0).free_tailp bp).free_tailp with
          free_tailp := bp } := by
  unfold free_list_append
  rw [if_pos hh]

theorem free_list_remove_spec (st : AllocState) (l1 l2 : List Nat) (bp : Nat)
    (hwf : freeListWF st (l1 ++ bp :: l2)) :
    freeListWF (free_list_remove st bp) (l1 ++ l2) ∧
      (∀ c, c ∉ fieldCells (l1 ++ bp :: l2) →
        (free_list_remove st bp).mem c = st.mem c) ∧
      (free_list_remove st bp).brk = st.brk ∧
      (free_list_remove st bp).heap_blocks = st.heap_blocks ∧
      (free_list_remove st bp).grow = st.grow := by
  obtain ⟨hlist, hnodes⟩ := hwf
  rw [isFreeListB_iff] at hlist
  obtain ⟨hnext, hprev, hhead, htail⟩ := hlist
  have hB : ∀ a ∈ l1 ++ bp :: l2, 8 ≤ a ∧ a + 16 < W32 := hnodes.1
  have hPW := hnodes.2
  have hbpmem : bp ∈ l1 ++ bp :: l2 := by simp
  have hbpB := hB bp hbpmem
  have hne0 : ∀ a ∈ l1 ++ bp :: l2, a ≠ 0 := prevChainB_ne_zero hprev
  have happ : ∀ a ∈ l1 ++ l2, a + 16 ≤ bp ∨ bp + 16 ≤ a :=
    nodes_apart_of_pairwise hPW
  -- the two link fields of bp
  have hprev2 := (Bool.and_eq_true _ _ |>.mp (prevChainB_append st 0 l1 (bp :: l2) ▸ hprev))
  have hbp4 : st.mem (bp + 4) = l1.getLastD 0 := prevChainB_cons_link hprev2.2
  have hnext2 := (Bool.and_eq_true _ _ |>.mp (nextChainToB_append st 0 l1 (bp :: l2) ▸ hnext))
  have hbp8 : st.mem (bp + 8) = l2.headD 0 := by
    have := nextChainToB_cons_link hnext2.2
    simpa using this
  have hgpf : get_prev_free st bp = l1.getLastD 0 := by
    simp only [get_prev_free, readW, padd_small (by omega : bp + 4 < W32)]
    exact hbp4
  have hgnf : get_next_free st bp = l2.headD 0 := by
    simp only [get_next_free, readW, padd_small (by omega : bp + 8 < W32)]
    exact hbp8
  -- nodesOK of the shorter list
  have hnodes' : nodesOK (l1 ++ l2) := by
    constructor
    · intro a ha
      rcases List.mem_append.mp ha with h | h
      · exact hB a (List.mem_append_left _ h)
      · exact hB a (List.mem_append_right _ (List.mem_cons_of_mem bp h))
    · have hsub : (l1 ++ l2).Sublist (l1 ++ bp :: l2) :=
        List.Sublist.append_left (List.sublist_cons_self bp l2) l1
      exact hPW.sublist hsub
  rcases List.eq_nil_or_concat l1 with rfl | ⟨l1', u, rfl⟩
  · cases l2 with
    | nil =>
      have hgpf0 : get_prev_free st bp = 0 := by simpa using hgpf
      have hgnf0 : get_next_free st bp = 0 := by simpa using hgnf
      rw [free_list_remove_sole st bp hgpf0 hgnf0]
      unfold set_prev_free set_next_free
      refine ⟨⟨?_, hnodes'⟩, ?_, rfl, rfl, rfl⟩
      · simp [isFreeListB, nextChainToB, prevChainB, writeW]
      · intro c hc
        have hc4 : c ≠ bp + 4 := fun h => hc (mem_fieldCells.mpr ⟨bp, by simp, Or.inl h⟩)
        have hc8 : c ≠ bp + 8 := fun h => hc (mem_fieldCells.mpr ⟨bp, by simp, Or.inr h⟩)
        simp [writeW, padd_small (show bp + 4 < W32 by omega),
          padd_small (show bp + 8 < W32 by omega), hc4, hc8]
    | cons c l2' =>
      have hcne : c ≠ 0 := hne0 c (by simp)
      have hcB : 8 ≤ c ∧ c + 16 < W32 := hB c (by simp)
      have hapc : bp + 16 ≤ c ∨ c + 16 ≤ bp := by
        have := happ c (by simp)
        omega
      have hPW2 : (c :: l2').Pairwise (fun a b => a + 16 ≤ b ∨ b + 16 ≤ a) :=
        (List.pairwise_cons.mp (by simpa using hPW)).2
      have hapl2 : ∀ a ∈ l2', c + 16 ≤ a ∨ a + 16 ≤ c := by
        intro a ha
        have := (List.pairwise_cons.mp hPW2).1 a ha
        omega
      have hgpf0 : get_prev_free st bp = 0 := by simpa using hgpf
      have hgnf0 : get_next_free st bp = c := by simpa using hgnf
      have hbp8c : st.mem (bp + 8) = c := by simpa using hbp8
      rw [free_list_remove_head_eq st bp c hgpf0 hgnf0 hcne]
      have hre : get_next_free (set_prev_free st c 0) bp = c := by
        simp only [get_next_free, set_prev_free, readW, writeW,
          padd_small (show bp + 8 < W32 by omega),
          padd_small (show c + 4 < W32 by omega)]
        rw [if_neg (by omega)]
        exact hbp8c
      rw [hre]
      unfold set_prev_free set_next_free
      simp only [padd_small (show bp + 8 < W32 by omega),
        padd_small (show c + 4 < W32 by omega)]
      refine ⟨⟨?_, hnodes'⟩, ?_, rfl, rfl, rfl⟩
      · rw [isFreeListB_iff]
        refine ⟨?_, ?_, ?_, ?_⟩
        · have heq : ∀ a ∈ c :: l2',
              st.mem (a + 8) =
                (writeW { writeW st (c + 4) 0 with free_headp := c}
                  (bp + 8) 0).mem (a + 8) := by
            intro a ha
            rcases List.mem_cons.mp ha with rfl | ha'
            · simp only [writeW]
              rw [if_neg (by omega), if_neg (by omega)]
            · have h1 := hapl2 a ha'
              have h2 := happ a (by simpa using List.mem_cons_of_mem c ha')
              simp only [writeW]
              rw [if_neg (by omega), if_neg (by omega)]
          rw [List.nil_append, ← nextChainToB_eqOn heq]
          exact nextChainToB_cons_tail (by simpa using hnext)
        · have htail2 : prevChainB st c l2' = true :=
            prevChainB_cons_tail (prevChainB_cons_tail (by simpa using hprev))
          have heq : ∀ a ∈ l2',
              st.mem (a + 4) =
                (writeW { writeW st (c + 4) 0 with free_headp := c}
                  (bp + 8) 0).mem (a + 4) := by
            intro a ha
            have h1 := hapl2 a ha
            have h2 := happ a (by simpa using List.mem_cons_of_mem c ha)
            simp only [writeW]
            rw [if_neg (by omega), if_neg (by omega)]
          rw [List.nil_append]
          simp only [prevChainB, Bool.and_eq_true, bne_iff_ne, ne_eq,
            beq_iff_eq]
          refine ⟨⟨hcne, ?_⟩, ?_⟩
          · simp only [writeW]
            rw [if_neg (by omega)]
            simp
          · rw [← prevChainB_eqOn heq c]
            exact htail2
        · rfl
        · have ht : st.free_tailp = (c :: l2').getLastD bp := by
            simpa [List.getLastD_cons] using htail
          rw [List.nil_append]
          calc (writeW { writeW st (c + 4) 0 with free_headp := c}
                (bp + 8) 0).free_tailp
              = st.free_tailp := rfl
            _ = (c :: l2').getLastD bp := ht
            _ = (c :: l2').getLastD 0 := getLastD_irrel (by simp) bp 0
      · intro x hx
        have hx1 : x ≠ c + 4 := fun h => hx (mem_fieldCells.mpr ⟨c, by simp, Or.inl h⟩)
        have hx2 : x ≠ bp + 8 := fun h => hx (mem_fieldCells.mpr ⟨bp, by simp, Or.inr h⟩)
        simp only [writeW]
        rw [if_neg hx2, if_neg hx1]
  · simp only [List.concat_eq_append] at *
    cases l2 with
    | nil =>
      have hume : u ∈ l1' ++ [u] ++ bp :: [] := by simp
      have hune : u ≠ 0 := hne0 u hume
      have huB : 8 ≤ u ∧ u + 16 < W32 := hB u hume
      have hapu : bp + 16 ≤ u ∨ u + 16 ≤ bp := by
        have := happ u (by simp)
        omega
      have hapl1 : ∀ a ∈ l1', a + 16 ≤ u ∨ u + 16 ≤ a := by
        intro a ha
        have hsub : (l1' ++ [u]).Sublist (l1' ++ [u] ++ bp :: []) :=
          List.sublist_append_left _ _
        have hpw1 := hPW.sublist hsub
        rw [List.pairwise_append] at hpw1
        exact hpw1.2.2 a ha u (by simp)
      have hgl : (l1' ++ [u]).getLastD 0 = u := by
        rw [getLastD_append_right (by simp) 0]
        rfl
      have hgpfu : get_prev_free st bp = u := by rw [hgpf, hgl]
      have hgnf0 : get_next_free st bp = 0 := by simpa using hgnf
      have hbp4u : st.mem (bp + 4) = u := by rw [hbp4, hgl]
      have hnx : nextChainToB st bp (l1' ++ [u]) = true := by
        simpa using hnext2.1
      have hnxl1 : nextChainToB st u l1' = true := by
        have h := hnx
        rw [nextChainToB_append st bp l1' [u]] at h
        simp only [Bool.and_eq_true, List.headD_cons] at h
        exact h.1
      have hpvl1 : prevChainB st 0 l1' = true := by
        have h := hprev2.1
        rw [prevChainB_append st 0 l1' [u]] at h
        exact (Bool.and_eq_true _ _ |>.mp h).1
      have hu4 : st.mem (u + 4) = l1'.getLastD 0 := by
        have h := hprev2.1
        rw [prevChainB_append st 0 l1' [u]] at h
        exact prevChainB_cons_link (Bool.and_eq_true _ _ |>.mp h).2
      rw [free_list_remove_tail_eq st bp u hgpfu hgnf0 hune]
      have hre : get_prev_free (set_next_free st u 0) bp = u := by
        simp only [get_prev_free, set_next_free, readW, writeW,
          padd_small (show bp + 4 < W32 by omega),
          padd_small (show u + 8 < W32 by omega)]
        rw [if_neg (by omega)]
        exact hbp4u
      rw [hre]
      unfold set_prev_free set_next_free
      simp only [padd_small (show bp + 4 < W32 by omega),
        padd_small (show u + 8 < W32 by omega)]
      refine ⟨⟨?_, hnodes'⟩, ?_, rfl, rfl, rfl⟩
      · rw [isFreeListB_iff]
        have heq8 : ∀ a ∈ l1', st.mem (a + 8) =
            (writeW { writeW st (u + 8) 0 with free_tailp := u}
              (bp + 4) 0).mem (a + 8) := by
          intro a ha
          have h1 := hapl1 a ha
          have h2 := happ a (by simp [ha])
          simp only [writeW]
          rw [if_neg (by omega), if_neg (by omega)]
        have heq4 : ∀ a ∈ l1', st.mem (a + 4) =
            (writeW { writeW st (u + 8) 0 with free_tailp := u}
              (bp + 4) 0).mem (a + 4) := by
          intro a ha
          have h1 := hapl1 a ha
          have h2 := happ a (by simp [ha])
          simp only [writeW]
          rw [if_neg (by omega), if_neg (by omega)]
        refine ⟨?_, ?_, ?_, ?_⟩
        · rw [List.append_nil, nextChainToB_append _ 0 l1' [u]]
          simp only [Bool.and_eq_true, List.headD_cons]
          constructor
          · rw [← nextChainToB_eqOn heq8]
            exact hnxl1
          · simp only [nextChainToB, Bool.and_eq_true, bne_iff_ne, ne_eq,
              beq_iff_eq]
            refine ⟨hune, ?_⟩
            simp only [writeW]
            rw [if_neg (by omega)]
            simp
        · rw [List.append_nil, prevChainB_append _ 0 l1' [u]]
          simp only [Bool.and_eq_true]
          constructor
          · rw [← prevChainB_eqOn heq4 0]
            exact hpvl1
          · simp only [prevChainB, Bool.and_eq_true, bne_iff_ne, ne_eq,
              beq_iff_eq]
            refine ⟨⟨hune, ?_⟩, trivial⟩
            simp only [writeW]
            rw [if_neg (by omega), if_neg (by omega)]
            exact hu4
        · simp only [List.append_nil]
          have h1 : (writeW { writeW st (u + 8) 0 with free_tailp := u}
              (bp + 4) 0).free_headp = st.free_headp := rfl
          rw [h1, hhead, headD_append_left (show l1' ++ [u] ≠ [] by simp) 0]
        · simp only [List.append_nil]
          have h1 : (writeW { writeW st (u + 8) 0 with free_tailp := u}
              (bp + 4) 0).free_tailp = u := rfl
          rw [h1, hgl]
      · intro x hx
        have hx1 : x ≠ u + 8 := fun h => hx (mem_fieldCells.mpr ⟨u, by simp, Or.inr h⟩)
        have hx2 : x ≠ bp + 4 := fun h => hx (mem_fieldCells.mpr ⟨bp, by simp, Or.inl h⟩)
        simp only [writeW]
        rw [if_neg hx2, if_neg hx1]
    | cons c l2' =>
      have hume : u ∈ l1' ++ [u] ++ bp :: c :: l2' := by simp
      have hcme : c ∈ l1' ++ [u] ++ bp :: c :: l2' := by simp
      have hune : u ≠ 0 := hne0 u hume
      have hcne : c ≠ 0 := hne0 c hcme
      have huB : 8 ≤ u ∧ u + 16 < W32 := hB u hume
      have hcB : 8 ≤ c ∧ c + 16 < W32 := hB c hcme
      have hapu : bp + 16 ≤ u ∨ u + 16 ≤ bp := by
        have := happ u (by simp)
        omega
      have hapc : bp + 16 ≤ c ∨ c + 16 ≤ bp := by
        have := happ c (by simp)
        omega
      have hcross : ∀ a ∈ l1' ++ [u], ∀ b ∈ bp :: c :: l2',
          a + 16 ≤ b ∨ b + 16 ≤ a := (List.pairwise_append.mp hPW).2.2
      have hapuc : u + 16 ≤ c ∨ c + 16 ≤ u :=
        hcross u (by simp) c (by simp)
      have hapl1 : ∀ a ∈ l1', a + 16 ≤ u ∨ u + 16 ≤ a := by
        intro a ha
        have hpw1 := (List.pairwise_append.mp hPW).1
        rw [List.pairwise_append] at hpw1
        exact hpw1.2.2 a ha u (by simp)
      have hapul2 : ∀ a ∈ l2', u + 16 ≤ a ∨ a + 16 ≤ u := by
        intro a ha
        have := hcross u (by simp) a (by simp [ha])
        omega
      have hapcl1 : ∀ a ∈ l1', a + 16 ≤ c ∨ c + 16 ≤ a := by
        intro a ha
        exact hcross a (by simp [ha]) c (by simp)
      have hapcl2 : ∀ a ∈ l2', c + 16 ≤ a ∨ a + 16 ≤ c := by
        intro a ha
        have hpw2 := (List.pairwise_append.mp hPW).2.1
        rw [List.pairwise_cons] at hpw2
        rw [List.pairwise_cons] at hpw2
        have := hpw2.2.1 a ha
        omega
      have hgl : (l1' ++ [u]).getLastD 0 = u := by
        rw [getLastD_append_right (by simp) 0]
        rfl
      have hgpfu : get_prev_free st bp = u := by rw [hgpf, hgl]
      have hgnfc : get_next_free st bp = c := by simpa using hgnf
      have hbp4u : st.mem (bp + 4) = u := by rw [hbp4, hgl]
      have hbp8c : st.mem (bp + 8) = c := by simpa using hbp8
      have hnxl1 : nextChainToB st u l1' = true := by
        have h : nextChainToB st bp (l1' ++ [u]) = true := by
          simpa using hnext2.1
        rw [nextChainToB_append st bp l1' [u]] at h
        simp only [Bool.and_eq_true, List.headD_cons] at h
        exact h.1
      have hpvl1 : prevChainB st 0 l1' = true := by
        have h := hprev2.1
        rw [prevChainB_append st 0 l1' [u]] at h
        exact (Bool.and_eq_true _ _ |>.mp h).1
      have hu4 : st.mem (u + 4) = l1'.getLastD 0 := by
        have h := hprev2.1
        rw [prevChainB_append st 0 l1' [u]] at h
        exact prevChainB_cons_link (Bool.and_eq_true _ _ |>.mp h).2
      have hnxc : nextChainToB st 0 (c :: l2') = true :=
        nextChainToB_cons_tail hnext2.2
      have hpvc : prevChainB st c l2' = true := by
        have h1 : prevChainB st u (bp :: c :: l2') = true := by
          have := hprev2.2
          rwa [hgl] at this
        exact prevChainB_cons_tail (prevChainB_cons_tail h1)
      rw [free_list_remove_interior_eq st bp u c hgpfu hgnfc hune hcne]
      have hre8 : get_next_free (set_next_free st u c) bp = c := by
        simp only [get_next_free, set_next_free, readW, writeW,
          padd_small (show bp + 8 < W32 by omega),
          padd_small (show u + 8 < W32 by omega)]
        rw [if_neg (by omega)]
        exact hbp8c
      have hre4 : get_prev_free (set_next_free st u c) bp = u := by
        simp only [get_prev_free, set_next_free, readW, writeW,
          padd_small (show bp + 4 < W32 by omega),
          padd_small (show u + 8 < W32 by omega)]
        rw [if_neg (by omega)]
        exact hbp4u
      rw [hre8, hre4]
      unfold set_prev_free set_next_free
      simp only [padd_small (show u + 8 < W32 by omega),
        padd_small (show c + 4 < W32 by omega)]
      refine ⟨⟨?_, hnodes'⟩, ?_, rfl, rfl, rfl⟩
      · rw [isFreeListB_iff]
        have heq8l1 : ∀ a ∈ l1', st.mem (a + 8) =
            (writeW (writeW st (u + 8) c) (c + 4) u).mem (a + 8) := by
          intro a ha
          have h1 := hapl1 a ha
          have h2 := hapcl1 a ha
          simp only [writeW]
          rw [if_neg (by omega), if_neg (by omega)]
        have heq4l1 : ∀ a ∈ l1', st.mem (a + 4) =
            (writeW (writeW st (u + 8) c) (c + 4) u).mem (a + 4) := by
          intro a ha
          have h1 := hapl1 a ha
          have h2 := hapcl1 a ha
          simp only [writeW]
          rw [if_neg (by omega), if_neg (by omega)]
        have heq8c : ∀ a ∈ c :: l2', st.mem (a + 8) =
            (writeW (writeW st (u + 8) c) (c + 4) u).mem (a + 8) := by
          intro a ha
          rcases List.mem_cons.mp ha with rfl | ha'
          · simp only [writeW]
            rw [if_neg (by omega), if_neg (by omega)]
          · have h1 := hapul2 a ha'
            have h2 := hapcl2 a ha'
            simp only [writeW]
            rw [if_neg (by omega), if_neg (by omega)]
        have heq4l2 : ∀ a ∈ l2', st.mem (a + 4) =
            (writeW (writeW st (u + 8) c) (c + 4) u).mem (a + 4) := by
          intro a ha
          have h1 := hapul2 a ha
          have h2 := hapcl2 a ha
          simp only [writeW]
          rw [if_neg (by omega), if_neg (by omega)]
        refine ⟨?_, ?_, ?_, ?_⟩
        · rw [nextChainToB_append _ 0 (l1' ++ [u]) (c :: l2')]
          simp only [Bool.and_eq_true, List.headD_cons]
          refine ⟨?_, ?_⟩
          · rw [nextChainToB_append _ c l1' [u]]
            simp only [Bool.and_eq_true, List.headD_cons]
            refine ⟨?_, ?_⟩
            · rw [← nextChainToB_eqOn heq8l1]
              exact hnxl1
            · simp only [nextChainToB, Bool.and_eq_true, bne_iff_ne, ne_eq,
                beq_iff_eq]
              refine ⟨hune, ?_⟩
              simp only [writeW]
              rw [if_neg (by omega)]
              simp
          · rw [← nextChainToB_eqOn heq8c]
            exact hnxc
        · rw [prevChainB_append _ 0 (l1' ++ [u]) (c :: l2'), hgl]
          simp only [Bool.and_eq_true]
          refine ⟨?_, ?_⟩
          · rw [prevChainB_append _ 0 l1' [u]]
            simp only [Bool.and_eq_true]
            refine ⟨?_, ?_⟩
            · rw [← prevChainB_eqOn heq4l1 0]
              exact hpvl1
            · simp only [prevChainB, Bool.and_eq_true, bne_iff_ne, ne_eq,
                beq_iff_eq]
              refine ⟨⟨hune, ?_⟩, trivial⟩
              simp only [writeW]
              rw [if_neg (by omega), if_neg (by omega)]
              exact hu4
          · simp only [prevChainB, Bool.and_eq_true, bne_iff_ne, ne_eq,
              beq_iff_eq]
            refine ⟨⟨hcne, ?_⟩, ?_⟩
            · simp only [writeW]
              simp
            · rw [← prevChainB_eqOn heq4l2 c]
              exact hpvc
        · have h1 : (writeW (writeW st (u + 8) c) (c + 4) u).free_headp
              = st.free_headp := rfl
          rw [h1, hhead, headD_append_left (show l1' ++ [u] ≠ [] by simp) 0,
            headD_append_left (show l1' ++ [u] ≠ [] by simp) 0]
        · have h1 : (writeW (writeW st (u + 8) c) (c + 4) u).free_tailp
              = st.free_tailp := rfl
          rw [h1, htail, getLastD_append_right (show bp :: c :: l2' ≠ [] by simp) 0,
            getLastD_append_right (show c :: l2' ≠ [] by simp) 0,
            List.getLastD_cons, getLastD_irrel (show c :: l2' ≠ [] by simp) bp 0]
      · intro x hx
        have hx1 : x ≠ u + 8 := fun h => hx (mem_fieldCells.mpr ⟨u, by simp, Or.inr h⟩)
        have hx2 : x ≠ c + 4 := fun h => hx (mem_fieldCells.mpr ⟨c, by simp, Or.inl h⟩)
        simp only [writeW]
        rw [if_neg hx2, if_neg hx1]

theorem free_list_prepend_spec (st : AllocState) (l : List Nat) (bp : Nat)
    (hwf : freeListWF st l) (hbpB : 8 ≤ bp ∧ bp + 16 < W32)
    (hap : ∀ a ∈ l, a + 16 ≤ bp ∨ bp + 16 ≤ a) :
    freeListWF (free_list_prepend st bp) (bp :: l) ∧
      (∀ c, c ∉ fieldCells (bp :: l) →
        (free_list_prepend st bp).mem c = st.mem c) ∧
      (free_list_prepend st bp).free_headp = bp ∧
      (free_list_prepend st bp).brk = st.brk ∧
      (free_list_prepend st bp).heap_blocks = st.heap_blocks ∧
      (free_list_prepend st bp).grow = st.grow := by
  obtain ⟨hlist, hnodes⟩ := hwf
  rw [isFreeListB_iff] at hlist
  obtain ⟨hnext, hprev, hhead, htail⟩ := hlist
  have hne0 : ∀ a ∈ l, a ≠ 0 := prevChainB_ne_zero hprev
  have hnodesN : nodesOK (bp :: l) := by
    constructor
    · intro a ha
      rcases List.mem_cons.mp ha with rfl | ha'
      · exact hbpB
      · exact hnodes.1 a ha'
    · rw [List.pairwise_cons]
      refine ⟨fun a ha => ?_, hnodes.2⟩
      have := hap a ha
      omega
  cases l with
  | nil =>
    have hh0 : st.free_headp = 0 := by simpa using hhead
    have ht0 : st.free_tailp = 0 := by simpa using htail
    rw [free_list_prepend_empty_eq st bp hh0 ht0]
    unfold set_prev_free set_next_free
    simp only [padd_small (show bp + 4 < W32 by omega),
      padd_small (show bp + 8 < W32 by omega)]
    refine ⟨⟨?_, hnodesN⟩, ?_, ?_, ?_, ?_, ?_⟩ <;> try (first | rfl | trivial)
    · simp [isFreeListB, nextChainToB, prevChainB, writeW,
        (show bp ≠ 0 by omega)]
    · intro x hx
      have hx1 : x ≠ bp + 4 := fun h => hx (mem_fieldCells.mpr ⟨bp, by simp, Or.inl h⟩)
      have hx2 : x ≠ bp + 8 := fun h => hx (mem_fieldCells.mpr ⟨bp, by simp, Or.inr h⟩)
      simp only [writeW]
      rw [if_neg hx2, if_neg hx1]
  | cons c l' =>
    have hcne : c ≠ 0 := hne0 c (by simp)
    have hcB := hnodes.1 c (by simp)
    have hapc : c + 16 ≤ bp ∨ bp + 16 ≤ c := hap c (by simp)
    have hapl' : ∀ a ∈ l', c + 16 ≤ a ∨ a + 16 ≤ c := by
      intro a ha
      have := (List.pairwise_cons.mp hnodes.2).1 a ha
      omega
    have hheadc : st.free_headp = c := by simpa using hhead
    have hhne : st.free_headp ≠ 0 := by rw [hheadc]; exact hcne
    rw [free_list_prepend_nonempty_eq st bp (Or.inl hhne)]
    have hh1 : (set_prev_free st bp 0).free_headp = c := hheadc
    rw [hh1]
    have hh2 : (set_next_free (set_prev_free st bp 0) bp c).free_headp = c :=
      hheadc
    rw [hh2]
    unfold set_prev_free set_next_free
    simp only [padd_small (show bp + 4 < W32 by omega),
      padd_small (show bp + 8 < W32 by omega),
      padd_small (show c + 4 < W32 by omega)]
    refine ⟨⟨?_, hnodesN⟩, ?_, ?_, ?_, ?_, ?_⟩ <;> try (first | rfl | trivial)
    · rw [isFreeListB_iff]
      have heq8 : ∀ a ∈ c :: l', st.mem (a + 8) =
          ({ writeW (writeW (writeW st (bp + 4) 0) (bp + 8) c) (c + 4) bp with
              free_headp := bp } : AllocState).mem (a + 8) := by
        intro a ha
        show st.mem (a + 8) =
          (writeW (writeW (writeW st (bp + 4) 0) (bp + 8) c) (c + 4) bp).mem
            (a + 8)
        rcases List.mem_cons.mp ha with rfl | ha'
        · simp only [writeW]
          rw [if_neg (by omega), if_neg (by omega), if_neg (by omega)]
        · have h1 := hap a (by simp [ha'])
          have h2 := hapl' a ha'
          simp only [writeW]
          rw [if_neg (by omega), if_neg (by omega), if_neg (by omega)]
      have heq4 : ∀ a ∈ l', st.mem (a + 4) =
          ({ writeW (writeW (writeW st (bp + 4) 0) (bp + 8) c) (c + 4) bp with
              free_headp := bp } : AllocState).mem (a + 4) := by
        intro a ha
        show st.mem (a + 4) =
          (writeW (writeW (writeW st (bp + 4) 0) (bp + 8) c) (c + 4) bp).mem
            (a + 4)
        have h1 := hap a (by simp [ha])
        have h2 := hapl' a ha
        simp only [writeW]
        rw [if_neg (by omega), if_neg (by omega), if_neg (by omega)]
      refine ⟨?_, ?_, ?_, ?_⟩
      · refine nextChainToB_cons_intro (by omega) ?_ ?_
        · show (writeW (writeW (writeW st (bp + 4) 0) (bp + 8) c)
            (c + 4) bp).mem (bp + 8) = c
          simp only [writeW]
          rw [if_neg (by omega)]
          simp
        · rw [← nextChainToB_eqOn heq8]
          exact hnext
      · refine prevChainB_cons_intro (by omega) ?_
          (prevChainB_cons_intro hcne ?_ ?_)
        · show (writeW (writeW (writeW st (bp + 4) 0) (bp + 8) c)
            (c + 4) bp).mem (bp + 4) = 0
          simp only [writeW]
          rw [if_neg (by omega), if_neg (by omega)]
          simp
        · show (writeW (writeW (writeW st (bp + 4) 0) (bp + 8) c)
            (c + 4) bp).mem (c + 4) = bp
          simp only [writeW]
          simp
        · rw [← prevChainB_eqOn heq4 c]
          exact prevChainB_cons_tail hprev
      · rfl
      · show st.free_tailp = (bp :: c :: l').getLastD 0
        rw [htail, List.getLastD_cons, List.getLastD_cons, List.getLastD_cons]
    · intro x hx
      have hx1 : x ≠ bp + 4 := fun h => hx (mem_fieldCells.mpr ⟨bp, by simp, Or.inl h⟩)
      have hx2 : x ≠ bp + 8 := fun h => hx (mem_fieldCells.mpr ⟨bp, by simp, Or.inr h⟩)
      have hx3 : x ≠ c + 4 := fun h => hx (mem_fieldCells.mpr ⟨c, by simp, Or.inl h⟩)
      simp only [writeW]
      rw [if_neg hx3, if_neg hx2, if_neg hx1]

theorem free_list_append_spec (st : AllocState) (l : List Nat) (bp : Nat)
    (hwf : freeListWF st l) (hbpB : 8 ≤ bp ∧ bp + 16 < W32)
    (hap : ∀ a ∈ l, a + 16 ≤ bp ∨ bp + 16 ≤ a) :
    freeListWF (free_list_append st bp) (l ++ [bp]) ∧
      (∀ c, c ∉ fieldCells (l ++ [bp]) →
        (free_list_append st bp).mem c = st.mem c) ∧
      (free_list_append st bp).free_tailp = bp ∧
      (free_list_append st bp).brk = st.brk ∧
      (free_list_append st bp).heap_blocks = st.heap_blocks ∧
      (free_list_append st bp).grow = st.grow := by
  obtain ⟨hlist, hnodes⟩ := hwf
  rw [isFreeListB_iff] at hlist
  obtain ⟨hnext, hprev, hhead, htail⟩ := hlist
  have hne0 : ∀ a ∈ l, a ≠ 0 := prevChainB_ne_zero hprev
  have hnodesN : nodesOK (l ++ [bp]) := by
    constructor
    · intro a ha
      rcases List.mem_append.mp ha with ha' | ha'
      · exact hnodes.1 a ha'
      · have : a = bp := by simpa using ha'
        subst this
        exact hbpB
    · rw [List.pairwise_append]
      refine ⟨hnodes.2, by simp, fun a ha b hb => ?_⟩
      have : b = bp := by simpa using hb
      subst this
      exact hap a ha
  rcases List.eq_nil_or_concat l with rfl | ⟨l'', u, rfl⟩
  · have hh0 : st.free_headp = 0 := by simpa using hhead
    have ht0 : st.free_tailp = 0 := by simpa using htail
    rw [free_list_append_empty_eq st bp hh0 ht0]
    unfold set_prev_free set_next_free
    simp only [padd_small (show bp + 4 < W32 by omega),
      padd_small (show bp + 8 < W32 by omega)]
    refine ⟨⟨?_, hnodesN⟩, ?_, ?_, ?_, ?_, ?_⟩ <;> try (first | rfl | trivial)
    · simp [isFreeListB, nextChainToB, prevChainB, writeW,
        (show bp ≠ 0 by omega)]
    · intro x hx
      have hx1 : x ≠ bp + 4 := fun h => hx (mem_fieldCells.mpr ⟨bp, by simp, Or.inl h⟩)
      have hx2 : x ≠ bp + 8 := fun h => hx (mem_fieldCells.mpr ⟨bp, by simp, Or.inr h⟩)
      simp only [writeW]
      rw [if_neg hx2, if_neg hx1]
  · simp only [List.concat_eq_append] at *
    have hume : u ∈ l'' ++ [u] := by simp
    have hune : u ≠ 0 := hne0 u hume
    have huB := hnodes.1 u hume
    have hapu : u + 16 ≤ bp ∨ bp + 16 ≤ u := hap u hume
    have hapl'' : ∀ a ∈ l'', a + 16 ≤ u ∨ u + 16 ≤ a := by
      intro a ha
      have hpw := hnodes.2
      rw [List.pairwise_append] at hpw
      exact hpw.2.2 a ha u (by simp)
    have hgl : (l'' ++ [u]).getLastD 0 = u := by
      rw [getLastD_append_right (by simp) 0]
      rfl
    have htailu : st.free_tailp = u := by rw [htail, hgl]
    have htne : st.free_tailp ≠ 0 := by rw [htailu]; exact hune
    have hnxl'' : nextChainToB st u l'' = true := by
      have h := hnext
      rw [nextChainToB_append st 0 l'' [u]] at h
      simp only [Bool.and_eq_true, List.headD_cons] at h
      exact h.1
    have hpvl'' : prevChainB st 0 l'' = true := by
      have h := hprev
      rw [prevChainB_append st 0 l'' [u]] at h
      exact (Bool.and_eq_true _ _ |>.mp h).1
    have hu4 : st.mem (u + 4) = l''.getLastD 0 := by
      have h := hprev
      rw [prevChainB_append st 0 l'' [u]] at h
      exact prevChainB_cons_link (Bool.and_eq_true _ _ |>.mp h).2
    rw [free_list_append_nonempty_eq st bp (Or.inr htne)]
    have hh1 : (set_next_free st bp 0).free_tailp = u := htailu
    rw [hh1]
    have hh2 : (set_next_free (set_next_free st bp 0) u bp).free_tailp = u :=
      htailu
    rw [hh2]
    unfold set_prev_free set_next_free
    simp only [padd_small (show bp + 4 < W32 by omega),
      padd_small (show bp + 8 < W32 by omega),
      padd_small (show u + 8 < W32 by omega)]
    refine ⟨⟨?_, hnodesN⟩, ?_, ?_, ?_, ?_, ?_⟩ <;> try (first | rfl | trivial)
    · rw [isFreeListB_iff]
      have heq8 : ∀ a ∈ l'', st.mem (a + 8) =
          ({ writeW (writeW (writeW st (bp + 8) 0) (u + 8) bp) (bp + 4) u with
              free_tailp := bp } : AllocState).mem (a + 8) := by
        intro a ha
        show st.mem (a + 8) =
          (writeW (writeW (writeW st (bp + 8) 0) (u + 8) bp) (bp + 4) u).mem
            (a + 8)
        have h1 := hap a (by simp [ha])
        have h2 := hapl'' a ha
        simp only [writeW]
        rw [if_neg (by omega), if_neg (by omega), if_neg (by omega)]
      have heq4 : ∀ a ∈ l'', st.mem (a + 4) =
          ({ writeW (writeW (writeW st (bp + 8) 0) (u + 8) bp) (bp + 4) u with
              free_tailp := bp } : AllocState).mem (a + 4) := by
        intro a ha
        show st.mem (a + 4) =
          (writeW (writeW (writeW st (bp + 8) 0) (u + 8) bp) (bp + 4) u).mem
            (a + 4)
        have h1 := hap a (by simp [ha])
        have h2 := hapl'' a ha
        simp only [writeW]
        rw [if_neg (by omega), if_neg (by omega), if_neg (by omega)]
      refine ⟨?_, ?_, ?_, ?_⟩
      · rw [nextChainToB_append _ 0 (l'' ++ [u]) [bp]]
        simp only [Bool.and_eq_true, List.headD_cons]
        refine ⟨?_, ?_⟩
        · rw [nextChainToB_append _ bp l'' [u]]
          simp only [Bool.and_eq_true, List.headD_cons]
          refine ⟨?_, ?_⟩
          · rw [← nextChainToB_eqOn heq8]
            exact hnxl''
          · refine nextChainToB_single_intro hune ?_
            show (writeW (writeW (writeW st (bp + 8) 0) (u + 8) bp)
              (bp + 4) u).mem (u + 8) = bp
            simp only [writeW]
            rw [if_neg (by omega)]
            simp
        · refine nextChainToB_single_intro (by omega) ?_
          show (writeW (writeW (writeW st (bp + 8) 0) (u + 8) bp)
            (bp + 4) u).mem (bp + 8) = 0
          simp only [writeW]
          rw [if_neg (by omega), if_neg (by omega)]
          simp
      · rw [prevChainB_append _ 0 (l'' ++ [u]) [bp], hgl]
        simp only [Bool.and_eq_true]
        refine ⟨?_, ?_⟩
        · rw [prevChainB_append _ 0 l'' [u]]
          simp only [Bool.and_eq_true]
          refine ⟨?_, ?_⟩
          · rw [← prevChainB_eqOn heq4 0]
            exact hpvl''
          · refine prevChainB_cons_intro hune ?_ rfl
            show (writeW (writeW (writeW st (bp + 8) 0) (u + 8) bp)
              (bp + 4) u).mem (u + 4) = l''.getLastD 0
            simp only [writeW]
            rw [if_neg (by omega), if_neg (by omega), if_neg (by omega)]
            exact hu4
        · refine prevChainB_cons_intro (by omega) ?_ rfl
          show (writeW (writeW (writeW st (bp + 8) 0) (u + 8) bp)
            (bp + 4) u).mem (bp + 4) = u
          simp only [writeW]
          simp
      · show st.free_headp = (l'' ++ [u] ++ [bp]).headD 0
        rw [hhead, headD_append_left (show l'' ++ [u] ≠ [] by simp) 0]
      · show bp = (l'' ++ [u] ++ [bp]).getLastD 0
        rw [getLastD_append_right (show [bp] ≠ [] by simp) 0]
        rfl
    · intro x hx
      have hx1 : x ≠ bp + 4 := fun h => hx (mem_fieldCells.mpr ⟨bp, by simp, Or.inl h⟩)
      have hx2 : x ≠ bp + 8 := fun h => hx (mem_fieldCells.mpr ⟨bp, by simp, Or.inr h⟩)
      have hx3 : x ≠ u + 8 := fun h => hx (mem_fieldCells.mpr ⟨u, by simp, Or.inr h⟩)
      simp only [writeW]
      rw [if_neg hx1, if_neg hx3, if_neg hx2]

theorem decSize_of_mod8 {s : Nat} (h : s % 8 = 0) : decSize s = s := by
  simp only [decSize, h]
  omega

theorem decAlloc_of_mod8 {s : Nat} (h : s % 8 = 0) : decAlloc s = 0 := by
  simp only [decAlloc]
  omega

theorem set_header_zero_eq (st : AllocState) (bp s : Nat) :
    set_header st bp s 0 = writeW st bp s := by
  simp [set_header, encHF]

theorem writeW_mem_self (st : AllocState) (a v : Nat) :
    (writeW st a v).mem a = v := by
  simp [writeW]

theorem writeW_mem_of_ne (st : AllocState) (a v c : Nat) (h : c ≠ a) :
    (writeW st a v).mem c = st.mem c := by
  simp [writeW, h]

theorem mark_free_eq (st : AllocState) (bp s : Nat) (hs8 : s % 8 = 0)
    (hbnd : bp + s < W32) (h4 : 4 ≤ bp + s) :
    set_footer (set_header st bp s 0) bp s 0 =
      writeW (writeW st bp s) (bp + s - 4) s := by
  rw [set_header_zero_eq]
  unfold set_footer
  rw [set_header_zero_eq]
  have h1 : get_size (writeW st bp s) bp = s := by
    simp [get_size, readW, writeW_mem_self, decSize_of_mod8 hs8]
  rw [h1, padd_small hbnd, psub_small h4 hbnd]

theorem isFreeListB_transport {st st' : AllocState} {l : List Nat}
    (hmem4 : ∀ a ∈ l, st.mem (a + 4) = st'.mem (a + 4))
    (hmem8 : ∀ a ∈ l, st.mem (a + 8) = st'.mem (a + 8))
    (hh : st.free_headp = st'.free_headp)
    (ht : st.free_tailp = st'.free_tailp) :
    isFreeListB st l = isFreeListB st' l := by
  simp only [isFreeListB, nextChainToB_eqOn hmem8, prevChainB_eqOn hmem4, hh,
    ht]

/-- C4 (amended).  When the previous block is allocated and the next block
(of size `ns`) is free and on the well-formed free list, `free_coalesce bp`
removes the next block from the list, merges it into `bp` (header and footer
both become `s + ns`, marked free), and inserts `bp` at the head of the list
when the PRE-merge size `s` is < 1000, at the tail otherwise — the threshold
compares the size before merging, not the combined size. -/
theorem free_coalesce_next_free_spec (st : AllocState) (bp s ns ps : Nat)
    (l1 l2 : List Nat)
    (hwf : freeListWF st (l1 ++ (bp + s) :: l2))
    (hs : get_size st bp = s)
    (hs8 : s % 8 = 0) (hs16 : 16 ≤ s)
    (hns8 : ns % 8 = 0) (hns16 : 16 ≤ ns)
    (hnextcell : st.mem (bp + s) = ns)
    (hbplo : 8 ≤ bp) (hbound : bp + s + ns + 16 < W32)
    (hpf : decSize (st.mem (bp - 4)) = ps)
    (hps8 : 8 ≤ ps) (hpsle : ps ≤ bp)
    (hprevA : decAlloc (st.mem (bp - ps)) = 1)
    (hdisj : ∀ a ∈ l1 ++ l2, a + 16 ≤ bp ∨ bp + s + ns ≤ a) :
    (free_coalesce st bp).1 = bp ∧
      get_size (free_coalesce st bp).2 bp = s + ns ∧
      get_allocated (free_coalesce st bp).2 bp = 0 ∧
      get_size (free_coalesce st bp).2 (bp + s + ns - 4) = s + ns ∧
      get_allocated (free_coalesce st bp).2 (bp + s + ns - 4) = 0 ∧
      freeListWF (free_coalesce st bp).2
        (if s < 1000 then bp :: (l1 ++ l2) else (l1 ++ l2) ++ [bp]) ∧
      (s < 1000 → (free_coalesce st bp).2.free_headp = bp) ∧
      (1000 ≤ s → (free_coalesce st bp).2.free_tailp = bp) := by
  have hW : bp + s < W32 := by omega
  -- the state after marking the block free (header and footer writes)
  have hmark : set_footer (set_header st bp s 0) bp s 0 =
      writeW (writeW st bp s) (bp + s - 4) s :=
    mark_free_eq st bp s hs8 (by omega) (by omega)
  have f1 : (writeW (writeW st bp s) (bp + s - 4) s).mem bp = s := by
    rw [writeW_mem_of_ne _ _ _ _ (by omega), writeW_mem_self]
  have f4 : (writeW (writeW st bp s) (bp + s - 4) s).mem (bp + s) = ns := by
    rw [writeW_mem_of_ne _ _ _ _ (by omega),
      writeW_mem_of_ne _ _ _ _ (by omega)]
    exact hnextcell
  have hprevaddr : get_prev (writeW (writeW st bp s) (bp + s - 4) s) bp =
      bp - ps := by
    unfold get_prev
    rw [show psub bp 4 = bp - 4 from psub_small (by omega) (by omega)]
    have h2 : get_size (writeW (writeW st bp s) (bp + s - 4) s) (bp - 4)
        = ps := by
      unfold get_size readW
      rw [writeW_mem_of_ne _ _ _ _ (by omega),
        writeW_mem_of_ne _ _ _ _ (by omega)]
      exact hpf
    rw [h2, psub_small hpsle (by omega)]
  have hpa : get_allocated (writeW (writeW st bp s) (bp + s - 4) s)
      (get_prev (writeW (writeW st bp s) (bp + s - 4) s) bp) = 1 := by
    rw [hprevaddr]
    unfold get_allocated readW
    rw [writeW_mem_of_ne _ _ _ _ (by omega),
      writeW_mem_of_ne _ _ _ _ (by omega)]
    exact hprevA
  have hnextaddr : get_next (writeW (writeW st bp s) (bp + s - 4) s) bp =
      bp + s := by
    unfold get_next
    unfold get_size readW
    rw [f1, decSize_of_mod8 hs8, padd_small hW]
  have hna : get_allocated (writeW (writeW st bp s) (bp + s - 4) s)
      (bp + s) = 0 := by
    unfold get_allocated readW
    rw [f4]
    exact decAlloc_of_mod8 hns8
  -- select the prev-allocated, next-free branch of free_coalesce
  have hpath : free_coalesce st bp =
      (bp,
        let st3 := free_list_remove (writeW (writeW st bp s) (bp + s - 4) s)
          (bp + s)
        let st4 := if s < 1000 then free_list_prepend st3 bp
          else free_list_append st3 bp
        set_footer
          (set_header st4 bp (s + get_size st4 (get_next st4 bp)) 0) bp
          (s + get_size st4 (get_next st4 bp)) 0) := by
    unfold free_coalesce
    rw [hs]
    dsimp only
    rw [hmark, hnextaddr, hpa, hna]
    simp
  have hmemsplit : ∀ a ∈ l1 ++ (bp + s) :: l2, a = bp + s ∨ a ∈ l1 ++ l2 := by
    intro a ha
    rcases List.mem_append.mp ha with h | h
    · exact Or.inr (List.mem_append_left _ h)
    · rcases List.mem_cons.mp h with h' | h'
      · exact Or.inl h'
      · exact Or.inr (List.mem_append_right _ h')
  have hwf2 : freeListWF (writeW (writeW st bp s) (bp + s - 4) s)
      (l1 ++ (bp + s) :: l2) := by
    obtain ⟨hl, hn⟩ := hwf
    refine ⟨?_, hn⟩
    have hmem4 : ∀ a ∈ l1 ++ (bp + s) :: l2, st.mem (a + 4) =
        (writeW (writeW st bp s) (bp + s - 4) s).mem (a + 4) := by
      intro a ha
      rcases hmemsplit a ha with rfl | h
      · rw [writeW_mem_of_ne _ _ _ _ (by omega),
          writeW_mem_of_ne _ _ _ _ (by omega)]
      · have := hdisj a h
        rw [writeW_mem_of_ne _ _ _ _ (by omega),
          writeW_mem_of_ne _ _ _ _ (by omega)]
    have hmem8 : ∀ a ∈ l1 ++ (bp + s) :: l2, st.mem (a + 8) =
        (writeW (writeW st bp s) (bp + s - 4) s).mem (a + 8) := by
      intro a ha
      rcases hmemsplit a ha with rfl | h
      · rw [writeW_mem_of_ne _ _ _ _ (by omega),
          writeW_mem_of_ne _ _ _ _ (by omega)]
      · have := hdisj a h
        rw [writeW_mem_of_ne _ _ _ _ (by omega),
          writeW_mem_of_ne _ _ _ _ (by omega)]
    rw [← isFreeListB_transport hmem4 hmem8 rfl rfl]
    exact hl
  have hbpB' : 8 ≤ bp ∧ bp + 16 < W32 := ⟨hbplo, by omega⟩
  have hap' : ∀ a ∈ l1 ++ l2, a + 16 ≤ bp ∨ bp + 16 ≤ a := by
    intro a ha
    have := hdisj a ha
    omega
  have hrem := free_list_remove_spec (writeW (writeW st bp s) (bp + s - 4) s)
    l1 l2 (bp + s) hwf2
  have hbp_nf : bp ∉ fieldCells (l1 ++ (bp + s) :: l2) := by
    intro h
    rcases mem_fieldCells.mp h with ⟨a, ha, hor⟩
    rcases hmemsplit a ha with rfl | h'
    · rcases hor with h'' | h'' <;> omega
    · have := hdisj a h'
      rcases hor with h'' | h'' <;> omega
  have hnext_nf : (bp + s) ∉ fieldCells (l1 ++ (bp + s) :: l2) := by
    intro h
    rcases mem_fieldCells.mp h with ⟨a, ha, hor⟩
    rcases hmemsplit a ha with rfl | h'
    · rcases hor with h'' | h'' <;> omega
    · have := hdisj a h'
      rcases hor with h'' | h'' <;> omega
  have h3bp : (free_list_remove (writeW (writeW st bp s) (bp + s - 4) s)
      (bp + s)).mem bp = s := by
    rw [hrem.2.1 bp hbp_nf]
    exact f1
  have h3next : (free_list_remove (writeW (writeW st bp s) (bp + s - 4) s)
      (bp + s)).mem (bp + s) = ns := by
    rw [hrem.2.1 _ hnext_nf]
    exact f4
  rw [hpath]
  dsimp only
  rcases Nat.lt_or_ge s 1000 with hlt | hge
  · rw [if_pos hlt, if_pos hlt]
    have hpre := free_list_prepend_spec
      (free_list_remove (writeW (writeW st bp s) (bp + s - 4) s) (bp + s))
      (l1 ++ l2) bp hrem.1 hbpB' hap'
    have hbp_nf2 : bp ∉ fieldCells (bp :: (l1 ++ l2)) := by
      intro h
      rcases mem_fieldCells.mp h with ⟨a, ha, hor⟩
      rcases List.mem_cons.mp ha with rfl | h'
      · rcases hor with h'' | h'' <;> omega
      · have := hdisj a h'
        rcases hor with h'' | h'' <;> omega
    have hnext_nf2 : (bp + s) ∉ fieldCells (bp :: (l1 ++ l2)) := by
      intro h
      rcases mem_fieldCells.mp h with ⟨a, ha, hor⟩
      rcases List.mem_cons.mp ha with rfl | h'
      · rcases hor with h'' | h'' <;> omega
      · have := hdisj a h'
        rcases hor with h'' | h'' <;> omega
    have h4bp : (free_list_prepend
        (free_list_remove (writeW (writeW st bp s) (bp + s - 4) s) (bp + s))
        bp).mem bp = s := by
      rw [hpre.2.1 bp hbp_nf2]
      exact h3bp
    have hns4 : get_size (free_list_prepend
        (free_list_remove (writeW (writeW st bp s) (bp + s - 4) s) (bp + s))
        bp) (get_next (free_list_prepend
        (free_list_remove (writeW (writeW st bp s) (bp + s - 4) s) (bp + s))
        bp) bp) = ns := by
      have hg : get_next (free_list_prepend
          (free_list_remove (writeW (writeW st bp s) (bp + s - 4) s) (bp + s))
          bp) bp = bp + s := by
        unfold get_next get_size readW
        rw [h4bp, decSize_of_mod8 hs8, padd_small hW]
      rw [hg]
      unfold get_size readW
      rw [hpre.2.1 _ hnext_nf2, h3next, decSize_of_mod8 hns8]
    rw [hns4]
    rw [mark_free_eq _ bp (s + ns) (by omega) (by omega) (by omega)]
    have hT4 : bp + (s + ns) - 4 = bp + s + ns - 4 := by omega
    rw [hT4]
    have hmemT4 : ∀ a ∈ bp :: (l1 ++ l2),
        (free_list_prepend (free_list_remove
          (writeW (writeW st bp s) (bp + s - 4) s) (bp + s)) bp).mem (a + 4) =
        (writeW (writeW (free_list_prepend (free_list_remove
          (writeW (writeW st bp s) (bp + s - 4) s) (bp + s)) bp) bp (s + ns))
          (bp + s + ns - 4) (s + ns)).mem (a + 4) := by
      intro a ha
      rcases List.mem_cons.mp ha with rfl | h'
      · rw [writeW_mem_of_ne _ _ _ _ (by omega),
          writeW_mem_of_ne _ _ _ _ (by omega)]
      · have := hdisj a h'
        rw [writeW_mem_of_ne _ _ _ _ (by omega),
          writeW_mem_of_ne _ _ _ _ (by omega)]
    have hmemT8 : ∀ a ∈ bp :: (l1 ++ l2),
        (free_list_prepend (free_list_remove
          (writeW (writeW st bp s) (bp + s - 4) s) (bp + s)) bp).mem (a + 8) =
        (writeW (writeW (free_list_prepend (free_list_remove
          (writeW (writeW st bp s) (bp + s - 4) s) (bp + s)) bp) bp (s + ns))
          (bp + s + ns - 4) (s + ns)).mem (a + 8) := by
      intro a ha
      rcases List.mem_cons.mp ha with rfl | h'
      · rw [writeW_mem_of_ne _ _ _ _ (by omega),
          writeW_mem_of_ne _ _ _ _ (by omega)]
      · have := hdisj a h'
        rw [writeW_mem_of_ne _ _ _ _ (by omega),
          writeW_mem_of_ne _ _ _ _ (by omega)]
    refine ⟨rfl, ?_, ?_, ?_, ?_, ⟨?_, hpre.1.2⟩, fun _ => ?_, fun h => ?_⟩
    · unfold get_size readW
      rw [writeW_mem_of_ne _ _ _ _ (by omega), writeW_mem_self,
        decSize_of_mod8 (by omega)]
    · unfold get_allocated readW
      rw [writeW_mem_of_ne _ _ _ _ (by omega), writeW_mem_self,
        decAlloc_of_mod8 (by omega)]
    · unfold get_size readW
      rw [writeW_mem_self, decSize_of_mod8 (by omega)]
    · unfold get_allocated readW
      rw [writeW_mem_self, decAlloc_of_mod8 (by omega)]
    · rw [← isFreeListB_transport hmemT4 hmemT8 rfl rfl]
      exact hpre.1.1
    · rw [writeW_headp, writeW_headp]
      exact hpre.2.2.1
    · omega
  · rw [if_neg (by omega), if_neg (by omega)]
    have hpost := free_list_append_spec
      (free_list_remove (writeW (writeW st bp s) (bp + s - 4) s) (bp + s))
      (l1 ++ l2) bp hrem.1 hbpB' hap'
    have hbp_nf2 : bp ∉ fieldCells ((l1 ++ l2) ++ [bp]) := by
      intro h
      rcases mem_fieldCells.mp h with ⟨a, ha, hor⟩
      rcases List.mem_append.mp ha with h' | h'
      · have := hdisj a h'
        rcases hor with h'' | h'' <;> omega
      · have : a = bp := by simpa using h'
        subst this
        rcases hor with h'' | h'' <;> omega
    have hnext_nf2 : (bp + s) ∉ fieldCells ((l1 ++ l2) ++ [bp]) := by
      intro h
      rcases mem_fieldCells.mp h with ⟨a, ha, hor⟩
      rcases List.mem_append.mp ha with h' | h'
      · have := hdisj a h'
        rcases hor with h'' | h'' <;> omega
      · have : a = bp := by simpa using h'
        subst this
        rcases hor with h'' | h'' <;> omega
    have h4bp : (free_list_append
        (free_list_remove (writeW (writeW st bp s) (bp + s - 4) s) (bp + s))
        bp).mem bp = s := by
      rw [hpost.2.1 bp hbp_nf2]
      exact h3bp
    have hns4 : get_size (free_list_append
        (free_list_remove (writeW (writeW st bp s) (bp + s - 4) s) (bp + s))
        bp) (get_next (free_list_append
        (free_list_remove (writeW (writeW st bp s) (bp + s - 4) s) (bp + s))
        bp) bp) = ns := by
      have hg : get_next (free_list_append
          (free_list_remove (writeW (writeW st bp s) (bp + s - 4) s) (bp + s))
          bp) bp = bp + s := by
        unfold get_next get_size readW
        rw [h4bp, decSize_of_mod8 hs8, padd_small hW]
      rw [hg]
      unfold get_size readW
      rw [hpost.2.1 _ hnext_nf2, h3next, decSize_of_mod8 hns8]
    rw [hns4]
    rw [mark_free_eq _ bp (s + ns) (by omega) (by omega) (by omega)]
    have hT4 : bp + (s + ns) - 4 = bp + s + ns - 4 := by omega
    rw [hT4]
    have hmemT4 : ∀ a ∈ (l1 ++ l2) ++ [bp],
        (free_list_append (free_list_remove
          (writeW (writeW st bp s) (bp + s - 4) s) (bp + s)) bp).mem (a + 4) =
        (writeW (writeW (free_list_append (free_list_remove
          (writeW (writeW st bp s) (bp + s - 4) s) (bp + s)) bp) bp (s + ns))
          (bp + s + ns - 4) (s + ns)).mem (a + 4) := by
      intro a ha
      rcases List.mem_append.mp ha with h' | h'
      · have := hdisj a h'
        rw [writeW_mem_of_ne _ _ _ _ (by omega),
          writeW_mem_of_ne _ _ _ _ (by omega)]
      · have : a = bp := by simpa using h'
        subst this
        rw [writeW_mem_of_ne _ _ _ _ (by omega),
          writeW_mem_of_ne _ _ _ _ (by omega)]
    have hmemT8 : ∀ a ∈ (l1 ++ l2) ++ [bp],
        (free_list_append (free_list_remove
          (writeW (writeW st bp s) (bp + s - 4) s) (bp + s)) bp).mem (a + 8) =
        (writeW (writeW (free_list_append (free_list_remove
          (writeW (writeW st bp s) (bp + s - 4) s) (bp + s)) bp) bp (s + ns))
          (bp + s + ns - 4) (s + ns)).mem (a + 8) := by
      intro a ha
      rcases List.mem_append.mp ha with h' | h'
      · have := hdisj a h'
        rw [writeW_mem_of_ne _ _ _ _ (by omega),
          writeW_mem_of_ne _ _ _ _ (by omega)]
      · have : a = bp := by simpa using h'
        subst this
        rw [writeW_mem_of_ne _ _ _ _ (by omega),
          writeW_mem_of_ne _ _ _ _ (by omega)]
    refine ⟨rfl, ?_, ?_, ?_, ?_, ⟨?_, hpost.1.2⟩, fun h => ?_, fun _ => ?_⟩
    · unfold get_size readW
      rw [writeW_mem_of_ne _ _ _ _ (by omega), writeW_mem_self,
        decSize_of_mod8 (by omega)]
    · unfold get_allocated readW
      rw [writeW_mem_of_ne _ _ _ _ (by omega), writeW_mem_self,
        decAlloc_of_mod8 (by omega)]
    · unfold get_size readW
      rw [writeW_mem_self, decSize_of_mod8 (by omega)]
    · unfold get_allocated readW
      rw [writeW_mem_self, decAlloc_of_mod8 (by omega)]
    · rw [← isFreeListB_transport hmemT4 hmemT8 rfl rfl]
      exact hpost.1.1
    · omega
    · rw [writeW_tailp, writeW_tailp]
      exact hpost.2.2.1

/-- C4 counterexample to the spec as written: freeing the 984-byte block at
28 whose free right neighbour has size 16 produces a combined block of size
exactly 1000.  The combined size is NOT < 1000, so the claimed rule would
insert at the tail; the code compares the pre-merge size 984 < 1000 and
inserts at the head (head becomes 28, tail stays 1044). -/
theorem free_coalesce_threshold_uses_premerge_size :
    get_size stCoalesce 28 = 984 ∧
    get_allocated stCoalesce (28 + 984) = 0 ∧
    get_size (free_coalesce stCoalesce 28).2 28 = 1000 ∧
    ¬ (1000 < 1000) ∧
    (free_coalesce stCoalesce 28).2.free_headp = 28 ∧
    (free_coalesce stCoalesce 28).2.free_tailp = 1044 := by decide

/-- C4 witness: the amended theorem instantiated at `stCoalesce` with
bp = 28, s = 984, ns = 16: the merged block has size 1000 at header and
footer, the resulting list is [28, 1044] and the head is 28. -/
theorem free_coalesce_next_free_spec_witness :
    (free_coalesce stCoalesce 28).1 = 28 ∧
    get_size (free_coalesce stCoalesce 28).2 28 = 1000 ∧
    get_allocated (free_coalesce stCoalesce 28).2 28 = 0 ∧
    get_size (free_coalesce stCoalesce 28).2 1024 = 1000 ∧
    freeListWF (free_coalesce stCoalesce 28).2 [28, 1044] ∧
    (free_coalesce stCoalesce 28).2.free_headp = 28 :=
  have h := free_coalesce_next_free_spec stCoalesce 28 984 16 16 [] [1044]
    (by decide) (by decide) (by decide) (by decide) (by decide) (by decide)
    (by decide) (by decide) (by decide) (by decide) (by decide) (by decide)
    (by decide) (by decide)
  ⟨h.1, h.2.1, h.2.2.1, h.2.2.2.1, h.2.2.2.2.2.1, h.2.2.2.2.2.2.1 (by decide)⟩
